import Mathlib

/-!
# Verification of the day-planner calendar core

Shallow embedding of the event recurrence-expansion and conflict-detection
engine of the day-planner repository (`useCalendar` hook and its calendar
types), together with proofs about the embedded operations.

Calendar dates are modelled date-only (the application stores midnight
dates), as whole days since 1970-01-01.  The date-fns library operations
used by the source (`addDays`, `addWeeks`, `addMonths`, `isSameDay`,
`isBefore`, `isAfter`, `getDay`, `format(d, "yyyy-MM-dd")`) are modelled
from their documented Gregorian-calendar semantics on that representation.
-/

namespace DayPlanner


/-- Proleptic Gregorian leap-year test, as used by JS `Date` / date-fns. -/
def isLeap (y : Int) : Bool :=
  (y % 4 == 0 && y % 100 != 0) || y % 400 == 0

/-- Number of days of month `m` (1..12) of year `y` in the Gregorian calendar. -/
def daysInMonth (y : Int) (m : Nat) : Nat :=
  if m = 2 then (if isLeap y then 29 else 28)
  else if m = 4 ∨ m = 6 ∨ m = 9 ∨ m = 11 then 30
  else 31

/-- A calendar date in year/month/day form (month 1..12, day 1-based). -/
structure CivilDate where
  year : Int
  month : Nat
  day : Nat
deriving DecidableEq

/-- Well-formedness of a civil date. -/
def CivilDate.Valid (c : CivilDate) : Prop :=
  1 ≤ c.month ∧ c.month ≤ 12 ∧ 1 ≤ c.day ∧ c.day ≤ daysInMonth c.year c.month

instance (c : CivilDate) : Decidable c.Valid := by
  unfold CivilDate.Valid; infer_instance


/-- Length of year `y` in days. -/
def daysInYear (y : Int) : Nat := if isLeap y then 366 else 365

/-- Day number 0 is 1970-01-01. -/
def epochCivil : CivilDate := ⟨1970, 1, 1⟩

/-- Epoch-day number of a civil date (standard closed form; all divisions by
positive literals are floor divisions). -/
def daysFromCivil (c : CivilDate) : Int :=
  let y : Int := if c.month ≤ 2 then c.year - 1 else c.year
  let era : Int := y / 400
  let yoe : Int := y - era * 400
  let mp : Int := if 2 < c.month then (c.month : Int) - 3 else (c.month : Int) + 9
  let doy : Int := (153 * mp + 2) / 5 + (c.day : Int) - 1
  let doe : Int := yoe * 365 + yoe / 4 - yoe / 100 + doy
  era * 146097 + doe - 719468

example : daysFromCivil epochCivil = 0 := by decide
example : daysFromCivil ⟨1969, 12, 31⟩ = -1 := by decide
example : daysFromCivil ⟨1970, 1, 2⟩ = 1 := by decide
example : daysFromCivil ⟨2000, 3, 1⟩ = 11017 := by decide

/-- Walk forward whole years from year `y`, consuming `n ≥ 0` days, until
fewer than a year of days remains.  The fuel only bounds the recursion
depth (one step per year). -/
def cfdYear : Nat → Int → Int → Int × Int
  | 0, y, n => (y, n)
  | fuel + 1, y, n =>
    if n < daysInYear y then (y, n)
    else cfdYear fuel (y + 1) (n - daysInYear y)

/-- Walk backward whole years from year `y` while the day offset `n` is
negative. -/
def cfdYearNeg : Nat → Int → Int → Int × Int
  | 0, y, n => (y, n)
  | fuel + 1, y, n =>
    if 0 ≤ n then (y, n)
    else cfdYearNeg fuel (y - 1) (n + daysInYear (y - 1))

/-- Walk forward whole months inside one year, consuming `n` days. -/
def cfdMonth : Nat → Int → Nat → Nat → CivilDate
  | 0, y, m, n => ⟨y, m, n + 1⟩
  | fuel + 1, y, m, n =>
    if n < daysInMonth y m then ⟨y, m, n + 1⟩
    else cfdMonth fuel y (m + 1) (n - daysInMonth y m)

/-- Civil (y/m/d) form of an epoch-day number: find the year, then the
month, then the day. -/
def civilFromDays (d : Int) : CivilDate :=
  let p : Int × Int :=
    if 0 ≤ d then cfdYear (d.toNat + 1) 1970 d
    else cfdYearNeg ((-d).toNat + 1) 1970 d
  cfdMonth 12 p.1 1 p.2.toNat

example : civilFromDays 0 = ⟨1970, 1, 1⟩ := by decide
example : civilFromDays 365 = ⟨1971, 1, 1⟩ := by decide
example : civilFromDays (-1) = ⟨1969, 12, 31⟩ := by decide
example : civilFromDays 11017 = ⟨2000, 3, 1⟩ := by decide

theorem daysInMonth_bounds (y : Int) (m : Nat) :
    1 ≤ daysInMonth y m ∧ daysInMonth y m ≤ 31 := by
  unfold daysInMonth; split_ifs <;> omega

theorem daysInYear_bounds (y : Int) :
    365 ≤ daysInYear y ∧ daysInYear y ≤ 366 := by
  unfold daysInYear; split_ifs <;> omega

theorem epochCivil_valid : epochCivil.Valid := by decide

theorem dfc_day_step (y : Int) (m : Nat) (d : Nat) :
    daysFromCivil ⟨y, m, d + 1⟩ = daysFromCivil ⟨y, m, d⟩ + 1 := by
  simp only [daysFromCivil]
  split_ifs <;> omega

/-- `daysFromCivil` is day-linear within a month. -/
theorem dfc_day_shift (y : Int) (m : Nat) (a : Nat) :
    daysFromCivil ⟨y, m, a⟩ = daysFromCivil ⟨y, m, 1⟩ + (a : Int) - 1 := by
  simp only [daysFromCivil]
  split_ifs <;> omega

theorem dfc_feb_step (y : Int) :
    daysFromCivil ⟨y, 3, 1⟩ = daysFromCivil ⟨y, 2, daysInMonth y 2⟩ + 1 := by
  simp only [daysFromCivil, daysInMonth, isLeap]
  by_cases h4 : y % 4 = 0 <;> by_cases h100 : y % 100 = 0 <;>
    by_cases h400 : y % 400 = 0 <;>
    simp [h4, h100, h400] <;> omega

theorem dfc_month_step (y : Int) (m : Nat) (h1 : 1 ≤ m) (h2 : m ≤ 11) :
    daysFromCivil ⟨y, m + 1, 1⟩ = daysFromCivil ⟨y, m, daysInMonth y m⟩ + 1 := by
  interval_cases m <;>
    first
      | exact dfc_feb_step y
      | (simp only [daysFromCivil, daysInMonth]; norm_num; omega)

theorem dfc_year_step (y : Int) :
    daysFromCivil ⟨y + 1, 1, 1⟩ = daysFromCivil ⟨y, 12, 31⟩ + 1 := by
  simp only [daysFromCivil]
  norm_num
  omega

/-- Consecutive January firsts are a calendar year apart. -/
theorem dfc_year_len (y : Int) :
    daysFromCivil ⟨y + 1, 1, 1⟩ = daysFromCivil ⟨y, 1, 1⟩ + (daysInYear y : Int) := by
  simp only [daysFromCivil, daysInYear, isLeap]
  by_cases h4 : y % 4 = 0 <;> by_cases h100 : y % 100 = 0 <;>
    by_cases h400 : y % 400 = 0 <;>
    simp [h4, h100, h400] <;> omega

theorem cfdYear_spec : ∀ (fuel : Nat) (y n : Int), 0 ≤ n → n < fuel →
    daysFromCivil ⟨(cfdYear fuel y n).1, 1, 1⟩ + (cfdYear fuel y n).2 =
      daysFromCivil ⟨y, 1, 1⟩ + n ∧
    0 ≤ (cfdYear fuel y n).2 ∧
    (cfdYear fuel y n).2 < daysInYear (cfdYear fuel y n).1 ∧
    y ≤ (cfdYear fuel y n).1 := by
  intro fuel
  induction fuel with
  | zero => intro y n h0 h1; omega
  | succ fuel ih =>
    intro y n h0 h1
    show _ ∧ _
    rw [show cfdYear (fuel + 1) y n =
      (if n < daysInYear y then (y, n)
       else cfdYear fuel (y + 1) (n - daysInYear y)) from rfl]
    split_ifs with hy
    · exact ⟨rfl, h0, hy, le_refl y⟩
    · have hb := daysInYear_bounds y
      obtain ⟨ih1, ih2, ih3, ih4⟩ :=
        ih (y + 1) (n - daysInYear y) (by omega) (by omega)
      have hlen := dfc_year_len y
      refine ⟨by omega, ih2, ih3, by omega⟩

theorem cfdYearNeg_spec : ∀ (fuel : Nat) (y n : Int), n < daysInYear y → -n ≤ fuel →
    daysFromCivil ⟨(cfdYearNeg fuel y n).1, 1, 1⟩ + (cfdYearNeg fuel y n).2 =
      daysFromCivil ⟨y, 1, 1⟩ + n ∧
    0 ≤ (cfdYearNeg fuel y n).2 ∧
    (cfdYearNeg fuel y n).2 < daysInYear (cfdYearNeg fuel y n).1 := by
  intro fuel
  induction fuel with
  | zero =>
    intro y n h0 h1
    show daysFromCivil ⟨y, 1, 1⟩ + n = daysFromCivil ⟨y, 1, 1⟩ + n ∧ 0 ≤ n ∧ _
    exact ⟨rfl, by omega, by simpa using h0⟩
  | succ fuel ih =>
    intro y n h0 h1
    rw [show cfdYearNeg (fuel + 1) y n =
      (if 0 ≤ n then (y, n)
       else cfdYearNeg fuel (y - 1) (n + daysInYear (y - 1))) from rfl]
    split_ifs with hy
    · exact ⟨rfl, hy, h0⟩
    · have hb := daysInYear_bounds (y - 1)
      obtain ⟨ih1, ih2, ih3⟩ :=
        ih (y - 1) (n + daysInYear (y - 1)) (by omega) (by omega)
      have hlen := dfc_year_len (y - 1)
      rw [show y - 1 + 1 = y from by omega] at hlen
      exact ⟨by omega, ih2, ih3⟩

theorem cfdMonth_spec : ∀ (fuel : Nat) (y : Int) (m n : Nat), 1 ≤ m → m ≤ 12 →
    (daysFromCivil ⟨y, m, 1⟩ + (n : Int) < daysFromCivil ⟨y + 1, 1, 1⟩) →
    12 - m < fuel →
    (cfdMonth fuel y m n).Valid ∧
    daysFromCivil (cfdMonth fuel y m n) = daysFromCivil ⟨y, m, 1⟩ + n := by
  intro fuel
  induction fuel with
  | zero => intro y m n h1 h2 h3 h4; omega
  | succ fuel ih =>
    intro y m n h1 h2 h3 h4
    rw [show cfdMonth (fuel + 1) y m n =
      (if n < daysInMonth y m then ⟨y, m, n + 1⟩
       else cfdMonth fuel y (m + 1) (n - daysInMonth y m)) from rfl]
    split_ifs with hm
    · constructor
      · exact show 1 ≤ m ∧ m ≤ 12 ∧ 1 ≤ n + 1 ∧ n + 1 ≤ daysInMonth y m from
          ⟨h1, h2, by omega, by omega⟩
      · rw [dfc_day_shift y m (n + 1)]
        omega
    · have hb := daysInMonth_bounds y m
      have hm12 : m ≠ 12 := by
        intro hcontra
        subst hcontra
        have h31 : daysInMonth y 12 = 31 := by simp [daysInMonth]
        have hshift := dfc_day_shift y 12 31
        have hstep := dfc_year_step y
        omega
      have hstep : daysFromCivil ⟨y, m + 1, 1⟩ =
          daysFromCivil ⟨y, m, daysInMonth y m⟩ + 1 :=
        dfc_month_step y m h1 (by omega)
      have hshift := dfc_day_shift y m (daysInMonth y m)
      obtain ⟨ihv, ihval⟩ := ih y (m + 1) (n - daysInMonth y m)
        (by omega) (by omega) (by omega) (by omega)
      exact ⟨ihv, by omega⟩

/-- `civilFromDays` produces a well-formed civil date whose epoch-day
number is the input: the two conversions are mutually inverse. -/
theorem civilFromDays_spec (d : Int) :
    (civilFromDays d).Valid ∧ daysFromCivil (civilFromDays d) = d := by
  have hepoch : daysFromCivil ⟨1970, 1, 1⟩ = 0 := by decide
  unfold civilFromDays
  by_cases hd : 0 ≤ d
  · rw [if_pos hd]
    obtain ⟨h1, h2, h3, h4⟩ := cfdYear_spec (d.toNat + 1) 1970 d hd (by omega)
    have hyl := dfc_year_len (cfdYear (d.toNat + 1) 1970 d).1
    have htn : ((cfdYear (d.toNat + 1) 1970 d).2.toNat : Int) =
        (cfdYear (d.toNat + 1) 1970 d).2 := by omega
    obtain ⟨hv, hval⟩ := cfdMonth_spec 12 (cfdYear (d.toNat + 1) 1970 d).1 1
      (cfdYear (d.toNat + 1) 1970 d).2.toNat (by omega) (by omega)
      (by rw [htn]; omega) (by omega)
    exact ⟨hv, by rw [hval, htn]; omega⟩
  · rw [if_neg hd]
    have hb := daysInYear_bounds 1970
    obtain ⟨h1, h2, h3⟩ := cfdYearNeg_spec ((-d).toNat + 1) 1970 d (by omega) (by omega)
    have hyl := dfc_year_len (cfdYearNeg ((-d).toNat + 1) 1970 d).1
    have htn : ((cfdYearNeg ((-d).toNat + 1) 1970 d).2.toNat : Int) =
        (cfdYearNeg ((-d).toNat + 1) 1970 d).2 := by omega
    obtain ⟨hv, hval⟩ := cfdMonth_spec 12 (cfdYearNeg ((-d).toNat + 1) 1970 d).1 1
      (cfdYearNeg ((-d).toNat + 1) 1970 d).2.toNat (by omega) (by omega)
      (by rw [htn]; omega) (by omega)
    exact ⟨hv, by rw [hval, htn]; omega⟩

theorem civilFromDays_valid (d : Int) : (civilFromDays d).Valid :=
  (civilFromDays_spec d).1

/-- The conversions between epoch-day numbers and civil dates are mutually
inverse: `daysFromCivil` recovers the day number `civilFromDays` started
from. -/
theorem daysFromCivil_civilFromDays (d : Int) :
    daysFromCivil (civilFromDays d) = d :=
  (civilFromDays_spec d).2

theorem civilFromDays_injective : Function.Injective civilFromDays := by
  intro a b hab
  have ha := daysFromCivil_civilFromDays a
  have hb := daysFromCivil_civilFromDays b
  rw [hab] at ha
  omega

/-- Day numbers at or after the epoch have years at or after 1970. -/
theorem civilFromDays_year_lb (d : Int) (h : 0 ≤ d) :
    1970 ≤ (civilFromDays d).year := by
  have hmy : ∀ (fuel : Nat) (y : Int) (m n : Nat), (cfdMonth fuel y m n).year = y := by
    intro fuel
    induction fuel with
    | zero => intro y m n; rfl
    | succ fuel ih =>
      intro y m n
      rw [show cfdMonth (fuel + 1) y m n =
        (if n < daysInMonth y m then ⟨y, m, n + 1⟩
         else cfdMonth fuel y (m + 1) (n - daysInMonth y m)) from rfl]
      split_ifs
      · rfl
      · exact ih y (m + 1) _
  obtain ⟨h1, h2, h3, h4⟩ := cfdYear_spec (d.toNat + 1) 1970 d h (by omega)
  unfold civilFromDays
  rw [if_pos h]
  rw [hmy]
  omega

/-- Weekday of an epoch-day number, 0 = Sunday .. 6 = Saturday
(1970-01-01 was a Thursday), modelling date-fns `getDay`. -/
def getDay (d : Int) : Nat := ((d + 4) % 7).toNat

theorem getDay_lt (d : Int) : getDay d < 7 := by
  unfold getDay; omega

theorem getDay_add (d : Int) (k : Nat) :
    getDay (d + k) = (getDay d + k) % 7 := by
  unfold getDay; omega

/-- date-fns `addMonths` on civil dates: step the year/month, keeping the
day-of-month but clamping it to the length of the target month. -/
def addMonthsCivil (c : CivilDate) (n : Nat) : CivilDate :=
  let idx : Nat := (c.month - 1) + n
  let y2 : Int := c.year + (idx / 12 : Nat)
  let m2 : Nat := idx % 12 + 1
  ⟨y2, m2, min c.day (daysInMonth y2 m2)⟩

/-- date-fns `addMonths` on epoch-day numbers. -/
def addMonths (d : Int) (n : Nat) : Int :=
  daysFromCivil (addMonthsCivil (civilFromDays d) n)

set_option maxRecDepth 8000 in
example : addMonths 0 12 = 365 := by decide

set_option maxRecDepth 8000 in
example : addMonths 30 1 = 58 := by decide

/-! ## Decimal rendering and parsing of dates

date-fns `format(d, "yyyy-MM-dd")` renders the civil form of a date with
zero-padded decimal fields.  A parser for the same strings gives the
round-trip facts that make the rendering injective. -/

/-- The character of the decimal digit `n` (for `n < 10`). -/
def digitChar (n : Nat) : Char := Char.ofNat (48 + n)

/-- Is `ch` a decimal digit? -/
def isDigitCh (ch : Char) : Bool := 48 ≤ ch.toNat && ch.toNat ≤ 57

/-- Numeric value of a digit character. -/
def digitVal (ch : Char) : Nat := ch.toNat - 48

/-- Decimal digits of `n`, most significant first (fuel-based so that it
reduces in the kernel; the fuel `n + 1` always suffices). -/
def natDigitsAux : Nat → Nat → List Char
  | 0, _ => []
  | fuel + 1, n =>
    if n < 10 then [digitChar n]
    else natDigitsAux fuel (n / 10) ++ [digitChar (n % 10)]

/-- Decimal digit string of `n`, most significant first. -/
def natDigits (n : Nat) : List Char := natDigitsAux (n + 1) n

/-- Numeric value of a digit string, most significant first. -/
def ofDigits (s : List Char) : Nat := s.foldl (fun a ch => a * 10 + digitVal ch) 0

/-- Left-pad with zeros to width `k` (as the `yyyy`/`MM`/`dd` format
tokens do). -/
def padZeros (k : Nat) (s : List Char) : List Char :=
  List.replicate (k - s.length) '0' ++ s

theorem digitVal_digitChar (n : Nat) (h : n < 10) : digitVal (digitChar n) = n := by
  interval_cases n <;> decide

theorem isDigitCh_digitChar (n : Nat) (h : n < 10) : isDigitCh (digitChar n) = true := by
  interval_cases n <;> decide

theorem natDigitsAux_eq (n : Nat) : ∀ f : Nat, n < f → natDigitsAux f n = natDigits n := by
  induction n using Nat.strong_induction_on with
  | _ n ih =>
    intro f hf
    match f, hf with
    | f + 1, _ =>
      show natDigitsAux (f + 1) n = natDigitsAux (n + 1) n
      by_cases h10 : n < 10
      · simp [natDigitsAux, h10]
      · simp only [natDigitsAux, if_neg h10]
        rw [show natDigitsAux f (n / 10) = natDigits (n / 10) from
              ih (n / 10) (by omega) f (by omega),
            show natDigitsAux n (n / 10) = natDigits (n / 10) from
              ih (n / 10) (by omega) n (by omega)]

theorem natDigits_step (n : Nat) (h10 : ¬ n < 10) :
    natDigits n = natDigits (n / 10) ++ [digitChar (n % 10)] := by
  show natDigitsAux (n + 1) n = _
  simp only [natDigitsAux, if_neg h10]
  rw [natDigitsAux_eq (n / 10) n (by omega)]

theorem ofDigits_append_digit (xs : List Char) (c : Char) :
    ofDigits (xs ++ [c]) = ofDigits xs * 10 + digitVal c := by
  unfold ofDigits
  rw [List.foldl_append]
  rfl

/-- `natDigits` produces a nonempty digit string whose value is `n`. -/
theorem natDigits_spec (n : Nat) :
    (∀ c ∈ natDigits n, isDigitCh c = true) ∧ natDigits n ≠ [] ∧
      ofDigits (natDigits n) = n := by
  induction n using Nat.strong_induction_on with
  | _ n ih =>
    by_cases h10 : n < 10
    · have hstep : natDigits n = [digitChar n] := by
        show natDigitsAux (n + 1) n = _
        simp [natDigitsAux, h10]
      rw [hstep]
      refine ⟨?_, by simp, ?_⟩
      · intro c hc
        simp only [List.mem_singleton] at hc
        subst hc
        exact isDigitCh_digitChar n h10
      · show 0 * 10 + digitVal (digitChar n) = n
        rw [digitVal_digitChar n h10]
        omega

    · obtain ⟨ihd, ihne, ihval⟩ := ih (n / 10) (by omega)
      rw [natDigits_step n h10]
      refine ⟨?_, by simp, ?_⟩
      · intro c hc
        rw [List.mem_append] at hc
        rcases hc with hc | hc
        · exact ihd c hc
        · simp only [List.mem_singleton] at hc
          subst hc
          exact isDigitCh_digitChar _ (by omega)
      · rw [ofDigits_append_digit, ihval, digitVal_digitChar _ (by omega)]
        omega

theorem ofDigits_replicate_zero (j : Nat) (s : List Char) :
    ofDigits (List.replicate j '0' ++ s) = ofDigits s := by
  induction j with
  | zero => simp
  | succ j ih =>
    rw [List.replicate_succ, List.cons_append]
    show List.foldl _ (0 * 10 + digitVal '0') _ = _
    rw [show 0 * 10 + digitVal '0' = 0 from by decide]
    exact ih

theorem ofDigits_padZeros (k : Nat) (s : List Char) :
    ofDigits (padZeros k s) = ofDigits s := ofDigits_replicate_zero _ s

theorem padZeros_digits (k : Nat) (s : List Char)
    (h : ∀ c ∈ s, isDigitCh c = true) :
    ∀ c ∈ padZeros k s, isDigitCh c = true := by
  intro c hc
  rw [padZeros, List.mem_append] at hc
  rcases hc with hc | hc
  · rw [List.eq_of_mem_replicate hc]
    decide
  · exact h c hc

theorem padZeros_ne_nil (k : Nat) (s : List Char) (h : s ≠ []) :
    padZeros k s ≠ [] := by
  rw [padZeros]
  intro hcontra
  rw [List.append_eq_nil] at hcontra
  exact h hcontra.2

/-- Render a civil date as `yyyy-MM-dd` (negative years keep a sign). -/
def formatCivil (c : CivilDate) : List Char :=
  (if c.year < 0 then '-' :: padZeros 4 (natDigits (-c.year).toNat)
   else padZeros 4 (natDigits c.year.toNat))
  ++ ('-' :: (padZeros 2 (natDigits c.month)
  ++ ('-' :: padZeros 2 (natDigits c.day))))

/-- date-fns `format(d, "yyyy-MM-dd")` on an epoch-day number. -/
def formatDate (d : Int) : String := String.mk (formatCivil (civilFromDays d))

/-- Consume a leading run of digit characters. -/
def takeDigits : List Char → List Char × List Char
  | [] => ([], [])
  | ch :: rest =>
    if isDigitCh ch then
      let p := takeDigits rest
      (ch :: p.1, p.2)
    else ([], ch :: rest)

/-- Consume one expected `-` separator. -/
def expectDash : List Char → Option (List Char)
  | [] => Option.none
  | ch :: rest => if ch = '-' then Option.some rest else Option.none

/-- Parse a `yyyy-MM-dd` string back into a civil date (year ≥ 0 form). -/
def parseCivil (s : List Char) : Option CivilDate :=
  let p1 := takeDigits s
  if p1.1 = [] then Option.none else
  match expectDash p1.2 with
  | Option.none => Option.none
  | Option.some rest2 =>
    let p2 := takeDigits rest2
    if p2.1 = [] then Option.none else
    match expectDash p2.2 with
    | Option.none => Option.none
    | Option.some rest4 =>
      let p3 := takeDigits rest4
      if p3.1 = [] then Option.none else
      if p3.2 = [] then
        Option.some ⟨(ofDigits p1.1 : Nat), ofDigits p2.1, ofDigits p3.1⟩
      else Option.none

/-- Reconstruct a date value from its serialized string form (the model of
`new Date(string)` at the persistence boundary; `none` models an invalid
date). -/
def parseDate (s : String) : Option Int :=
  (parseCivil s.data).map daysFromCivil

theorem takeDigits_append (xs ys : List Char)
    (hx : ∀ c ∈ xs, isDigitCh c = true)
    (hy : ∀ c rest, ys = c :: rest → isDigitCh c = false) :
    takeDigits (xs ++ ys) = (xs, ys) := by
  induction xs with
  | nil =>
    cases ys with
    | nil => rfl
    | cons c rest =>
      simp only [List.nil_append, takeDigits]
      rw [hy c rest rfl]
      simp
  | cons c cs ih =>
    have hc : isDigitCh c = true := hx c (by simp)
    simp only [List.cons_append, takeDigits, hc, if_pos, List.append_eq]
    rw [ih (fun x hx2 => hx x (by simp [hx2]))]

theorem parseCivil_formatCivil (c : CivilDate) (hy : 0 ≤ c.year) :
    parseCivil (formatCivil c) = Option.some ⟨c.year, c.month, c.day⟩ := by
  obtain ⟨y, m, d⟩ := c
  have hy2 : ¬ (y < 0) := by
    simp only [CivilDate.year] at hy
    omega
  obtain ⟨hYd, hYne, hYval⟩ := natDigits_spec y.toNat
  obtain ⟨hMd, hMne, hMval⟩ := natDigits_spec m
  obtain ⟨hDd, hDne, hDval⟩ := natDigits_spec d
  have hfmt : formatCivil ⟨y, m, d⟩ =
      padZeros 4 (natDigits y.toNat)
      ++ ('-' :: (padZeros 2 (natDigits m) ++ ('-' :: padZeros 2 (natDigits d)))) := by
    simp only [formatCivil]
    rw [if_neg hy2]
  have h1 : takeDigits (formatCivil ⟨y, m, d⟩) =
      (padZeros 4 (natDigits y.toNat),
        '-' :: (padZeros 2 (natDigits m) ++ ('-' :: padZeros 2 (natDigits d)))) := by
    rw [hfmt]
    exact takeDigits_append _ _ (padZeros_digits _ _ hYd)
      (by intro c rest h; injection h with h1 h2; subst h1; decide)
  have h2 : takeDigits (padZeros 2 (natDigits m) ++ ('-' :: padZeros 2 (natDigits d))) =
      (padZeros 2 (natDigits m), '-' :: padZeros 2 (natDigits d)) :=
    takeDigits_append _ _ (padZeros_digits _ _ hMd)
      (by intro c rest h; injection h with h1 h2; subst h1; decide)
  have h3 : takeDigits (padZeros 2 (natDigits d)) = (padZeros 2 (natDigits d), []) := by
    have := takeDigits_append (padZeros 2 (natDigits d)) [] (padZeros_digits _ _ hDd)
      (by intro c rest h; exact absurd h (by simp))
    simpa using this
  have hne1 := eq_false (padZeros_ne_nil 4 _ hYne)
  have hne2 := eq_false (padZeros_ne_nil 2 _ hMne)
  have hne3 := eq_false (padZeros_ne_nil 2 _ hDne)
  simp only [parseCivil, h1, h2, h3, expectDash, hne1, hne2, hne3, if_false,
    eq_self_iff_true, if_true, reduceIte]
  rw [ofDigits_padZeros, ofDigits_padZeros, ofDigits_padZeros, hYval, hMval, hDval]
  simp only [Option.some.injEq, CivilDate.mk.injEq, and_true]
  omega

/-- Round-trip: parsing a formatted date recovers the date, for dates at or
after the epoch. -/
theorem parseDate_formatDate (d : Int) (h : 0 ≤ d) :
    parseDate (formatDate d) = Option.some d := by
  unfold parseDate formatDate
  have hy : 0 ≤ (civilFromDays d).year := by
    have := civilFromDays_year_lb d h
    omega
  rw [show (String.mk (formatCivil (civilFromDays d))).data
      = formatCivil (civilFromDays d) from rfl]
  rw [parseCivil_formatCivil _ hy]
  show Option.some (daysFromCivil ⟨(civilFromDays d).year, (civilFromDays d).month,
    (civilFromDays d).day⟩) = Option.some d
  rw [show (⟨(civilFromDays d).year, (civilFromDays d).month, (civilFromDays d).day⟩
      : CivilDate) = civilFromDays d from rfl]
  rw [daysFromCivil_civilFromDays]

/-- Distinct dates (at or after the epoch) have distinct `yyyy-MM-dd`
renderings. -/
theorem formatDate_inj (d1 d2 : Int) (h1 : 0 ≤ d1) (h2 : 0 ≤ d2)
    (heq : formatDate d1 = formatDate d2) : d1 = d2 := by
  have p1 := parseDate_formatDate d1 h1
  have p2 := parseDate_formatDate d2 h2
  rw [heq] at p1
  rw [p1] at p2
  injection p2

/-! ## Monotonicity of `addMonths` -/

theorem daysFromCivil_day_mono (y : Int) (m : Nat) (d1 d2 : Nat) (h : d1 ≤ d2) :
    daysFromCivil ⟨y, m, d1⟩ ≤ daysFromCivil ⟨y, m, d2⟩ := by
  simp only [daysFromCivil]
  split_ifs <;> omega

/-- Step a (year, month) pair to the next month. -/
def nextYM (p : Int × Nat) : Int × Nat :=
  if p.2 < 12 then (p.1, p.2 + 1) else (p.1 + 1, 1)

theorem nextYM_bounds (p : Int × Nat) (h : 1 ≤ p.2 ∧ p.2 ≤ 12) :
    1 ≤ (nextYM p).2 ∧ (nextYM p).2 ≤ 12 := by
  unfold nextYM
  split_ifs <;> dsimp only <;> omega

theorem iterate_nextYM_bounds (p : Int × Nat) (h : 1 ≤ p.2 ∧ p.2 ≤ 12) (k : Nat) :
    1 ≤ (nextYM^[k] p).2 ∧ (nextYM^[k] p).2 ≤ 12 := by
  induction k with
  | zero => exact h
  | succ k ih =>
    rw [Function.iterate_succ_apply']
    exact nextYM_bounds _ ih

/-- First day of the next month is one past the last day of this month. -/
theorem dfc_nextYM_first (y : Int) (m : Nat) (h1 : 1 ≤ m) (h2 : m ≤ 12) :
    daysFromCivil ⟨(nextYM (y, m)).1, (nextYM (y, m)).2, 1⟩ =
      daysFromCivil ⟨y, m, daysInMonth y m⟩ + 1 := by
  by_cases hm : m < 12
  · have h5 : nextYM (y, m) = (y, m + 1) := by simp [nextYM, hm]
    rw [h5]
    exact dfc_month_step y m h1 (by omega)
  · have hm12 : m = 12 := by omega
    subst hm12
    have h5 : nextYM (y, 12) = (y + 1, 1) := by simp [nextYM]
    rw [h5, show daysInMonth y 12 = 31 from by simp [daysInMonth]]
    exact dfc_year_step y

/-- Iterating `nextYM` at least once strictly passes any day of the
starting month. -/
theorem dfc_iterate_nextYM (y : Int) (m : Nat) (h1 : 1 ≤ m) (h2 : m ≤ 12)
    (d : Nat) (hd : d ≤ daysInMonth y m) (k : Nat) (hk : 1 ≤ k) :
    daysFromCivil ⟨y, m, d⟩ <
      daysFromCivil ⟨(nextYM^[k] (y, m)).1, (nextYM^[k] (y, m)).2, 1⟩ := by
  induction k with
  | zero => omega
  | succ k ih =>
    by_cases hk0 : k = 0
    · subst hk0
      rw [Function.iterate_one]
      have := dfc_nextYM_first y m h1 h2
      have hmono := daysFromCivil_day_mono y m d (daysInMonth y m) hd
      omega
    · have ihk := ih (by omega)
      rw [Function.iterate_succ_apply']
      have hb := iterate_nextYM_bounds (y, m) ⟨h1, h2⟩ k
      have hfirst := dfc_nextYM_first (nextYM^[k] (y, m)).1 (nextYM^[k] (y, m)).2 hb.1 hb.2
      have hmono := daysFromCivil_day_mono (nextYM^[k] (y, m)).1 (nextYM^[k] (y, m)).2 1
        (daysInMonth (nextYM^[k] (y, m)).1 (nextYM^[k] (y, m)).2)
        (daysInMonth_bounds _ _).1
      rw [show ((nextYM^[k] (y, m)).1, (nextYM^[k] (y, m)).2) = nextYM^[k] (y, m)
        from rfl] at hfirst
      omega

/-- Closed form for iterated month stepping. -/
theorem iterate_nextYM_formula (y : Int) (m : Nat) (h1 : 1 ≤ m) (h2 : m ≤ 12) (n : Nat) :
    nextYM^[n] (y, m) = (y + (((m - 1) + n) / 12 : Nat), ((m - 1) + n) % 12 + 1) := by
  induction n with
  | zero =>
    simp only [Function.iterate_zero, id_eq]
    have e1 : ((m - 1) + 0) / 12 = 0 := by omega
    have e2 : ((m - 1) + 0) % 12 + 1 = m := by omega
    rw [e1, e2]
    simp
  | succ n ih =>
    rw [Function.iterate_succ_apply', ih]
    unfold nextYM
    split_ifs with h <;> dsimp only at h ⊢ <;> apply Prod.ext <;> dsimp only <;>
      push_cast <;> omega

/-- Adding at least one month always moves to a strictly later date. -/
theorem addMonths_strict_mono (d : Int) (n : Nat) (hn : 1 ≤ n) :
    d < addMonths d n := by
  have hv := civilFromDays_valid d
  obtain ⟨h1, h2, h3, h4⟩ : 1 ≤ (civilFromDays d).month ∧ (civilFromDays d).month ≤ 12 ∧
      1 ≤ (civilFromDays d).day ∧
      (civilFromDays d).day ≤ daysInMonth (civilFromDays d).year (civilFromDays d).month := hv
  have hform := iterate_nextYM_formula (civilFromDays d).year (civilFromDays d).month h1 h2 n
  have hstrict := dfc_iterate_nextYM (civilFromDays d).year (civilFromDays d).month h1 h2
    (civilFromDays d).day h4 n hn
  rw [hform] at hstrict
  dsimp only at hstrict
  have hcombine : d < daysFromCivil
      ⟨(civilFromDays d).year + ((((civilFromDays d).month - 1) + n) / 12 : Nat),
       (((civilFromDays d).month - 1) + n) % 12 + 1, 1⟩ := by
    have hrt := daysFromCivil_civilFromDays d
    have heta : (⟨(civilFromDays d).year, (civilFromDays d).month, (civilFromDays d).day⟩
        : CivilDate) = civilFromDays d := rfl
    rw [heta] at hstrict
    calc d = daysFromCivil (civilFromDays d) := hrt.symm
      _ < _ := hstrict
  have hmono := daysFromCivil_day_mono
    ((civilFromDays d).year + ((((civilFromDays d).month - 1) + n) / 12 : Nat))
    ((((civilFromDays d).month - 1) + n) % 12 + 1)
    1
    (min (civilFromDays d).day
      (daysInMonth
        ((civilFromDays d).year + ((((civilFromDays d).month - 1) + n) / 12 : Nat))
        ((((civilFromDays d).month - 1) + n) % 12 + 1)))
    (by
      have := (daysInMonth_bounds
        ((civilFromDays d).year + ((((civilFromDays d).month - 1) + n) / 12 : Nat))
        ((((civilFromDays d).month - 1) + n) % 12 + 1)).1
      omega)
  exact lt_of_lt_of_le hcombine hmono

/-! ## Data model (the calendar types module) -/

/-- `RecurrencePattern.type`. -/
inductive RecurrenceType
  | none
  | daily
  | weekly
  | monthly
  | custom
deriving DecidableEq

/-- `RecurrencePattern`. -/
structure RecurrencePattern where
  type : RecurrenceType
  interval : Option Nat
  daysOfWeek : List Nat
  endDate : Option Int
  occurrences : Option Nat
deriving DecidableEq

/-- `CalendarEvent`.  `endTime` is a string with `""` standing for an absent
end time: the source only ever uses `endTime` through the falsy test
`event.endTime || event.time`, for which `undefined` and `""` coincide. -/
structure CalendarEvent where
  id : String
  title : String
  description : Option String
  date : Int
  time : String
  endTime : String
  color : String
  category : Option String
  recurrence : Option RecurrencePattern
  originalDate : Option Int
  isRecurring : Bool
deriving DecidableEq

/-- `CalendarState.view`. -/
inductive CalendarView
  | month
  | week
  | day
deriving DecidableEq

/-- `CalendarState`. -/
structure CalendarState where
  events : List CalendarEvent
  currentDate : Int
  selectedDate : Option Int
  view : CalendarView
  isEventFormOpen : Bool
  editingEvent : Option CalendarEvent
  searchQuery : String
  selectedCategory : Option String
deriving DecidableEq

/-! ## Recurrence expansion (`generateRecurringEvents`) -/

/-- The generated occurrence object built inside the expansion loop:
`{ ...event, id: event.id + "-" + format(nextDate, "yyyy-MM-dd"),
date: nextDate, originalDate: event.date, isRecurring: true }`. -/
def recurringEventFor (event : CalendarEvent) (nextDate : Int) : CalendarEvent :=
  { event with
    id := event.id ++ "-" ++ formatDate nextDate
    date := nextDate
    originalDate := Option.some event.date
    isRecurring := true }

/-- The inner `while` of the weekly branch: advance day by day until the
weekday is in `daysOfWeek`.  `getDay` has period 7, so searching 7 days
decides the JS loop; `Option.none` models the loop running forever (which
the source does when no member of `daysOfWeek` is a weekday 0–6). -/
def findNextWeekday (daysOfWeek : List Nat) : Nat → Int → Option Int
  | 0, _ => Option.none
  | fuel + 1, cur =>
    if daysOfWeek.contains (getDay cur) then Option.some cur
    else findNextWeekday daysOfWeek fuel (cur + 1)

/-- The `switch (type)` computing `nextDate` inside the loop:
`some (some d)` is a computed next date, `some none` is the unreachable
`default: return events` branch, `none` models the diverging weekly
search. -/
def ruleNext (t : RecurrenceType) (interval : Nat) (daysOfWeek : List Nat)
    (currentDate : Int) : Option (Option Int) :=
  match t with
  | RecurrenceType.daily => Option.some (Option.some (currentDate + (interval : Int)))
  | RecurrenceType.weekly =>
    if daysOfWeek ≠ [] then
      (findNextWeekday daysOfWeek 7 (currentDate + 1)).map Option.some
    else Option.some (Option.some (currentDate + 7 * (interval : Int)))
  | RecurrenceType.monthly => Option.some (Option.some (addMonths currentDate interval))
  | RecurrenceType.custom => Option.some (Option.some (currentDate + (interval : Int)))
  | RecurrenceType.none => Option.some Option.none

/-- The `while (count < maxOccurrences && isBefore(currentDate, maxEndDate))`
loop of `generateRecurringEvents`.  `count` starts at 1 and increases by 1
per iteration, so the loop guard is carried as the fuel
`maxOccurrences - count`; `events` is the accumulated result array. -/
def genLoop (event : CalendarEvent) (t : RecurrenceType) (interval : Nat)
    (daysOfWeek : List Nat) (maxEndDate : Int) :
    Nat → Int → List CalendarEvent → Option (List CalendarEvent)
  | 0, _, events => Option.some events
  | fuel + 1, currentDate, events =>
    if maxEndDate ≤ currentDate then Option.some events
    else
      match ruleNext t interval daysOfWeek currentDate with
      | Option.none => Option.none
      | Option.some Option.none => Option.some events
      | Option.some (Option.some nextDate) =>
        if maxEndDate < nextDate then Option.some events
        else
          genLoop event t interval daysOfWeek maxEndDate fuel nextDate
            (events ++ [recurringEventFor event nextDate])

/-- `generateRecurringEvents(event)`.  `now` is the current processing time
(`new Date()`), read only to default the end date; `Option.none` models the
non-terminating weekly search.  `occurrences || 365` maps `some 0` and
`none` to 365 (JS falsiness), and `interval = 1` is the destructuring
default. -/
def generateRecurringEvents (event : CalendarEvent) (now : Int) :
    Option (List CalendarEvent) :=
  match event.recurrence with
  | Option.none => Option.some [event]
  | Option.some r =>
    if r.type = RecurrenceType.none then Option.some [event]
    else
      let interval : Nat := r.interval.getD 1
      let maxOccurrences : Nat :=
        match r.occurrences with
        | Option.some (n + 1) => n + 1
        | _ => 365
      let maxEndDate : Int := r.endDate.getD (addMonths now 12)
      genLoop event r.type interval r.daysOfWeek maxEndDate
        (maxOccurrences - 1) event.date [event]

/-! ## Store operations (`useCalendar`) -/

/-- `Partial<CalendarEvent>`: a present key may carry any value of the
field type (for optional fields, including an explicit absence). -/
structure EventPatch where
  id : Option String
  title : Option String
  description : Option (Option String)
  date : Option Int
  time : Option String
  endTime : Option String
  color : Option String
  category : Option (Option String)
  recurrence : Option (Option RecurrencePattern)
  originalDate : Option (Option Int)
  isRecurring : Option Bool
deriving DecidableEq

/-- JS object spread `{ ...event, ...eventData }`. -/
def applyPatch (event : CalendarEvent) (p : EventPatch) : CalendarEvent :=
  { id := p.id.getD event.id
    title := p.title.getD event.title
    description := p.description.getD event.description
    date := p.date.getD event.date
    time := p.time.getD event.time
    endTime := p.endTime.getD event.endTime
    color := p.color.getD event.color
    category := p.category.getD event.category
    recurrence := p.recurrence.getD event.recurrence
    originalDate := p.originalDate.getD event.originalDate
    isRecurring := p.isRecurring.getD event.isRecurring }

/-- The patch with no keys present. -/
def EventPatch.empty : EventPatch :=
  ⟨Option.none, Option.none, Option.none, Option.none, Option.none, Option.none,
   Option.none, Option.none, Option.none, Option.none, Option.none⟩

/-- `addEvent(eventData)`.  The store-assigned identity
`Date.now().toString()` is the external input `newId`, and `now` is the
processing time seen by the expansion; `Option.none` again models the
non-terminating weekly search inside the call. -/
def addEvent (st : CalendarState) (eventData : CalendarEvent) (newId : String)
    (now : Int) : Option CalendarState :=
  let newEvent : CalendarEvent := { eventData with id := newId }
  (generateRecurringEvents newEvent now).map fun eventsToAdd =>
    { st with
      events := st.events ++ eventsToAdd
      isEventFormOpen := false
      editingEvent := Option.none }

/-- `updateEvent(eventId, eventData)`. -/
def updateEvent (st : CalendarState) (eventId : String) (eventData : EventPatch) :
    CalendarState :=
  { st with
    events := st.events.map fun event =>
      if event.id = eventId then applyPatch event eventData else event
    isEventFormOpen := false
    editingEvent := Option.none }

/-- `deleteEvent(eventId)`. -/
def deleteEvent (st : CalendarState) (eventId : String) : CalendarState :=
  { st with
    events := st.events.filter fun event => event.id ≠ eventId
    isEventFormOpen := false
    editingEvent := Option.none }

/-- `getEventsForDate(date)` (`isSameDay` on date-only values is equality). -/
def getEventsForDate (st : CalendarState) (date : Int) : List CalendarEvent :=
  st.events.filter fun event => event.date = date

/-- JS string comparison `a <= b`: lexicographic on UTF-16 code units
(equivalently on code points for the BMP strings used here). -/
def jsLeChars : List Char → List Char → Bool
  | [], _ => true
  | _ :: _, [] => false
  | a :: as, b :: bs =>
    if a.toNat < b.toNat then true
    else if b.toNat < a.toNat then false
    else jsLeChars as bs

/-- JS `a <= b` on strings. -/
def jsLe (a b : String) : Bool := jsLeChars a.data b.data

/-- `checkEventConflict(newEvent, excludeId?)`.  `excludeId = ""` models an
absent argument: the source guard `excludeId && event.id === excludeId`
treats `undefined` and `""` identically (both falsy). -/
def checkEventConflict (st : CalendarState) (newEvent : CalendarEvent)
    (excludeId : String) : List CalendarEvent :=
  st.events.filter fun event =>
    if excludeId ≠ "" ∧ event.id = excludeId then false
    else if ¬ (event.date = newEvent.date) then false
    else
      let eventStart := event.time
      let eventEnd := if event.endTime = "" then event.time else event.endTime
      let newStart := newEvent.time
      let newEnd := if newEvent.endTime = "" then newEvent.time else newEvent.endTime
      jsLe eventStart newEnd && jsLe newStart eventEnd

/-- `moveEvent(eventId, newDate)`. -/
def moveEvent (st : CalendarState) (eventId : String) (newDate : Int) :
    CalendarState :=
  { st with
    events := st.events.map fun event =>
      if event.id = eventId then { event with date := newDate } else event }

/-! ## Persistence boundary (the load/save effects) -/

/-- Serialized form of a recurrence rule: the date field is a string. -/
structure StoredPattern where
  type : RecurrenceType
  interval : Option Nat
  daysOfWeek : List Nat
  endDate : Option String
  occurrences : Option Nat
deriving DecidableEq

/-- Serialized form of an event record: date fields are strings. -/
structure StoredEvent where
  id : String
  title : String
  description : Option String
  date : String
  time : String
  endTime : String
  color : String
  category : Option String
  recurrence : Option StoredPattern
  originalDate : Option String
  isRecurring : Bool
deriving DecidableEq

/-- Serialization of one event at the persistence boundary (dates are
written as date-only strings). -/
def saveEvent (event : CalendarEvent) : StoredEvent :=
  { id := event.id
    title := event.title
    description := event.description
    date := formatDate event.date
    time := event.time
    endTime := event.endTime
    color := event.color
    category := event.category
    recurrence := event.recurrence.map fun r =>
      { type := r.type
        interval := r.interval
        daysOfWeek := r.daysOfWeek
        endDate := r.endDate.map formatDate
        occurrences := r.occurrences }
    originalDate := event.originalDate.map formatDate
    isRecurring := event.isRecurring }

/-- The per-event load mapping of the mount effect:
`{ ...event, date: new Date(event.date), originalDate: event.originalDate ?
new Date(event.originalDate) : undefined, recurrence: ... }`.
`Option.none` models an unusable (invalid) reconstructed date. -/
def loadEvent (s : StoredEvent) : Option CalendarEvent :=
  match parseDate s.date with
  | Option.none => Option.none
  | Option.some date =>
    let origRes : Option (Option Int) :=
      match s.originalDate with
      | Option.none => Option.some Option.none
      | Option.some str =>
        if str = "" then Option.some Option.none
        else (parseDate str).map Option.some
    match origRes with
    | Option.none => Option.none
    | Option.some originalDate =>
      let recRes : Option (Option RecurrencePattern) :=
        match s.recurrence with
        | Option.none => Option.some Option.none
        | Option.some r =>
          match r.endDate with
          | Option.none =>
            Option.some (Option.some
              ⟨r.type, r.interval, r.daysOfWeek, Option.none, r.occurrences⟩)
          | Option.some str =>
            if str = "" then
              Option.some (Option.some
                ⟨r.type, r.interval, r.daysOfWeek, Option.none, r.occurrences⟩)
            else
              (parseDate str).map fun e =>
                Option.some ⟨r.type, r.interval, r.daysOfWeek, Option.some e, r.occurrences⟩
      match recRes with
      | Option.none => Option.none
      | Option.some recurrence =>
        Option.some
          { id := s.id
            title := s.title
            description := s.description
            date := date
            time := s.time
            endTime := s.endTime
            color := s.color
            category := s.category
            recurrence := recurrence
            originalDate := originalDate
            isRecurring := s.isRecurring }

/-- Serialize the full collection (the save effect). -/
def saveEvents (events : List CalendarEvent) : List StoredEvent :=
  events.map saveEvent

/-- Reload the full collection (the load effect). -/
def loadEvents (stored : List StoredEvent) : Option (List CalendarEvent) :=
  stored.mapM loadEvent

/-! ## Lemmas about the expansion loop -/

theorem genLoop_succ (event : CalendarEvent) (t : RecurrenceType) (interval : Nat)
    (daysOfWeek : List Nat) (maxEndDate : Int) (fuel : Nat) (cur : Int)
    (acc : List CalendarEvent) :
    genLoop event t interval daysOfWeek maxEndDate (fuel + 1) cur acc =
      (if maxEndDate ≤ cur then Option.some acc
       else
        match ruleNext t interval daysOfWeek cur with
        | Option.none => Option.none
        | Option.some Option.none => Option.some acc
        | Option.some (Option.some nextDate) =>
          if maxEndDate < nextDate then Option.some acc
          else
            genLoop event t interval daysOfWeek maxEndDate fuel nextDate
              (acc ++ [recurringEventFor event nextDate])) := rfl

theorem genLoop_stop (event : CalendarEvent) (t : RecurrenceType) (interval : Nat)
    (daysOfWeek : List Nat) (maxEndDate : Int) (fuel : Nat) (cur : Int)
    (acc : List CalendarEvent) (h : maxEndDate ≤ cur) :
    genLoop event t interval daysOfWeek maxEndDate fuel cur acc = Option.some acc := by
  cases fuel with
  | zero => rfl
  | succ fuel => rw [genLoop_succ, if_pos h]

theorem genLoop_advance (event : CalendarEvent) (t : RecurrenceType) (interval : Nat)
    (daysOfWeek : List Nat) (maxEndDate : Int) (fuel : Nat) (cur nd : Int)
    (acc : List CalendarEvent) (h1 : cur < maxEndDate)
    (h2 : ruleNext t interval daysOfWeek cur = Option.some (Option.some nd))
    (h3 : ¬ maxEndDate < nd) :
    genLoop event t interval daysOfWeek maxEndDate (fuel + 1) cur acc =
      genLoop event t interval daysOfWeek maxEndDate fuel nd
        (acc ++ [recurringEventFor event nd]) := by
  rw [genLoop_succ, if_neg (not_le.mpr h1), h2]
  show (if maxEndDate < nd then Option.some acc
    else genLoop event t interval daysOfWeek maxEndDate fuel nd
      (acc ++ [recurringEventFor event nd])) = _
  rw [if_neg h3]

theorem genLoop_acc (event : CalendarEvent) (t : RecurrenceType) (interval : Nat)
    (daysOfWeek : List Nat) (maxEndDate : Int) :
    ∀ (fuel : Nat) (cur : Int) (acc : List CalendarEvent),
    genLoop event t interval daysOfWeek maxEndDate fuel cur acc =
      (genLoop event t interval daysOfWeek maxEndDate fuel cur []).map (acc ++ ·) := by
  intro fuel
  induction fuel with
  | zero => intro cur acc; simp [genLoop]
  | succ fuel ih =>
    intro cur acc
    rw [genLoop_succ, genLoop_succ]
    split_ifs with hstop
    · simp
    · cases hr : ruleNext t interval daysOfWeek cur with
      | none => simp
      | some o =>
        cases o with
        | none => simp
        | some nd =>
          simp only []
          split_ifs with hnd
          · simp
          · rw [ih nd (acc ++ [recurringEventFor event nd]),
              ih nd ([] ++ [recurringEventFor event nd])]
            cases genLoop event t interval daysOfWeek maxEndDate fuel nd [] with
            | none => rfl
            | some l => simp

theorem genLoop_length (event : CalendarEvent) (t : RecurrenceType) (interval : Nat)
    (daysOfWeek : List Nat) (maxEndDate : Int) :
    ∀ (fuel : Nat) (cur : Int) (acc l : List CalendarEvent),
    genLoop event t interval daysOfWeek maxEndDate fuel cur acc = Option.some l →
    l.length ≤ acc.length + fuel := by
  intro fuel
  induction fuel with
  | zero =>
    intro cur acc l h
    injection h with h
    subst h
    omega
  | succ fuel ih =>
    intro cur acc l h
    rw [genLoop_succ] at h
    split_ifs at h with hstop
    · injection h with h
      subst h
      omega
    · cases hr : ruleNext t interval daysOfWeek cur with
      | none => rw [hr] at h; exact absurd h (by simp)
      | some o =>
        rw [hr] at h
        cases o with
        | none =>
          injection h with h
          subst h
          omega
        | some nd =>
          simp only [] at h
          split_ifs at h with hnd
          · injection h with h
            subst h
            omega
          · have := ih nd (acc ++ [recurringEventFor event nd]) l h
            rw [List.length_append] at this
            simp only [List.length_singleton] at this
            omega

theorem findNextWeekday_succ (daysOfWeek : List Nat) (fuel : Nat) (cur : Int) :
    findNextWeekday daysOfWeek (fuel + 1) cur =
      (if daysOfWeek.contains (getDay cur) then Option.some cur
       else findNextWeekday daysOfWeek fuel (cur + 1)) := rfl

theorem findNextWeekday_ge (daysOfWeek : List Nat) :
    ∀ (fuel : Nat) (cur nd : Int),
    findNextWeekday daysOfWeek fuel cur = Option.some nd → cur ≤ nd := by
  intro fuel
  induction fuel with
  | zero => intro cur nd h; exact absurd h (by simp [findNextWeekday])
  | succ fuel ih =>
    intro cur nd h
    rw [findNextWeekday_succ] at h
    split_ifs at h with hc
    · injection h with h
      omega
    · have := ih (cur + 1) nd h
      omega

theorem findNextWeekday_finds (daysOfWeek : List Nat) :
    ∀ (fuel : Nat) (cur : Int),
    (∃ j : Nat, j < fuel ∧ daysOfWeek.contains (getDay (cur + (j : Int))) = true) →
    ∃ nd, findNextWeekday daysOfWeek fuel cur = Option.some nd := by
  intro fuel
  induction fuel with
  | zero => intro cur h; obtain ⟨j, hj, _⟩ := h; omega
  | succ fuel ih =>
    intro cur h
    rw [findNextWeekday_succ]
    split_ifs with hc
    · exact ⟨cur, rfl⟩
    · obtain ⟨j, hj, hmem⟩ := h
      have hj0 : j ≠ 0 := by
        intro hcontra
        subst hcontra
        rw [show cur + ((0 : Nat) : Int) = cur from by omega] at hmem
        rw [hmem] at hc
        exact hc rfl
      refine ih (cur + 1) ⟨j - 1, by omega, ?_⟩
      rw [show cur + 1 + ((j - 1 : Nat) : Int) = cur + (j : Int) from by omega]
      exact hmem

/-- If some listed weekday is a real weekday (0–6), the 7-day search hits. -/
theorem findNextWeekday_hit (daysOfWeek : List Nat) (w : Nat) (hw : w ∈ daysOfWeek)
    (hw7 : w < 7) (cur : Int) :
    ∃ nd, findNextWeekday daysOfWeek 7 cur = Option.some nd := by
  refine findNextWeekday_finds daysOfWeek 7 cur ⟨(w + 7 - getDay cur) % 7, by omega, ?_⟩
  have hlt := getDay_lt cur
  rw [getDay_add cur ((w + 7 - getDay cur) % 7)]
  rw [show (getDay cur + (w + 7 - getDay cur) % 7) % 7 = w from by omega]
  exact List.elem_eq_true_of_mem hw

/-- The expansion loop terminates (in the model: returns `some`) whenever
any weekly day-of-week list in play contains a real weekday. -/
theorem genLoop_isSome (event : CalendarEvent) (t : RecurrenceType) (interval : Nat)
    (daysOfWeek : List Nat) (maxEndDate : Int)
    (hok : t = RecurrenceType.weekly → daysOfWeek ≠ [] → ∃ w ∈ daysOfWeek, w < 7) :
    ∀ (fuel : Nat) (cur : Int) (acc : List CalendarEvent),
    ∃ l, genLoop event t interval daysOfWeek maxEndDate fuel cur acc = Option.some l := by
  intro fuel
  induction fuel with
  | zero => intro cur acc; exact ⟨acc, rfl⟩
  | succ fuel ih =>
    intro cur acc
    rw [genLoop_succ]
    split_ifs with hstop
    · exact ⟨acc, rfl⟩
    · cases hr : ruleNext t interval daysOfWeek cur with
      | none =>
        exfalso
        cases t with
        | weekly =>
          simp only [ruleNext] at hr
          split_ifs at hr with hdw
          obtain ⟨w, hw, hw7⟩ := hok rfl hdw
          obtain ⟨nd, hnd⟩ := findNextWeekday_hit daysOfWeek w hw hw7 (cur + 1)
          rw [hnd] at hr
          exact absurd hr (by simp)
        | none => simp [ruleNext] at hr
        | daily => simp [ruleNext] at hr
        | monthly => simp [ruleNext] at hr
        | custom => simp [ruleNext] at hr
      | some o =>
        cases o with
        | none => exact ⟨acc, rfl⟩
        | some nd =>
          simp only []
          split_ifs with hnd
          · exact ⟨acc, rfl⟩
          · exact ih nd (acc ++ [recurringEventFor event nd])

/-- With a nonempty weekday list, the weekly branch never consults the
interval. -/
theorem genLoop_weekly_interval (event : CalendarEvent) (daysOfWeek : List Nat)
    (maxEndDate : Int) (hdw : daysOfWeek ≠ []) :
    ∀ (fuel : Nat) (cur : Int) (acc : List CalendarEvent) (i1 i2 : Nat),
    genLoop event RecurrenceType.weekly i1 daysOfWeek maxEndDate fuel cur acc =
      genLoop event RecurrenceType.weekly i2 daysOfWeek maxEndDate fuel cur acc := by
  intro fuel
  induction fuel with
  | zero => intro cur acc i1 i2; rfl
  | succ fuel ih =>
    intro cur acc i1 i2
    rw [genLoop_succ, genLoop_succ]
    have hrule : ∀ i : Nat, ruleNext RecurrenceType.weekly i daysOfWeek cur =
        (findNextWeekday daysOfWeek 7 (cur + 1)).map Option.some := by
      intro i
      simp [ruleNext, hdw]
    rw [hrule i1, hrule i2]
    split_ifs with hstop
    · rfl
    · cases findNextWeekday daysOfWeek 7 (cur + 1) with
      | none => rfl
      | some nd =>
        rw [show Option.map (Option.some : Int → Option Int) (Option.some nd) =
          Option.some (Option.some nd) from rfl]
        show (if maxEndDate < nd then Option.some acc else _) =
          (if maxEndDate < nd then Option.some acc else _)
        split_ifs with hnd
        · rfl
        · exact ih nd _ i1 i2

/-! ## String and identity lemmas -/

theorem string_data_append (a b : String) : (a ++ b).data = a.data ++ b.data := by
  cases a
  cases b
  rfl

theorem string_ext {a b : String} (h : a.data = b.data) : a = b := by
  cases a
  cases b
  exact congrArg String.mk h

/-- A derived identity is never the base identity (it is strictly longer). -/
theorem recurId_ne (base f : String) : base ≠ base ++ "-" ++ f := by
  intro h
  have hdata := congrArg String.data h
  rw [string_data_append, string_data_append] at hdata
  have hlen := congrArg List.length hdata
  rw [List.length_append, List.length_append] at hlen
  have hdash : ("-" : String).data.length = 1 := rfl
  omega

/-- Two derived identities with the same base agree only on equal dates
rendered. -/
theorem recurId_inj (base f1 f2 : String) (h : base ++ "-" ++ f1 = base ++ "-" ++ f2) :
    f1 = f2 := by
  have hdata := congrArg String.data h
  simp only [string_data_append] at hdata
  rw [List.append_assoc, List.append_assoc] at hdata
  have := List.append_cancel_left hdata
  have := List.append_cancel_left this
  exact string_ext this

/-- All step rules move strictly forward when the interval is positive (or
the rule is a weekly rule with explicit weekdays). -/
theorem ruleNext_lt (t : RecurrenceType) (interval : Nat) (daysOfWeek : List Nat)
    (cur nd : Int)
    (hpos : (t = RecurrenceType.weekly ∧ daysOfWeek ≠ []) ∨ 1 ≤ interval)
    (hr : ruleNext t interval daysOfWeek cur = Option.some (Option.some nd)) :
    cur < nd := by
  cases t with
  | daily =>
    have hnd : cur + (interval : Int) = nd := by simpa [ruleNext] using hr
    have hi : 1 ≤ interval := by
      rcases hpos with ⟨hw, _⟩ | hi
      · exact absurd hw (by decide)
      · exact hi
    omega
  | weekly =>
    simp only [ruleNext] at hr
    split_ifs at hr with hdw
    · cases hfw : findNextWeekday daysOfWeek 7 (cur + 1) with
      | none => rw [hfw] at hr; exact absurd hr (by simp)
      | some x =>
        rw [hfw] at hr
        have hx : x = nd := by simpa using hr
        have hge := findNextWeekday_ge daysOfWeek 7 (cur + 1) x hfw
        omega
    · have hnd : cur + 7 * (interval : Int) = nd := by simpa using hr
      have hi : 1 ≤ interval := by
        rcases hpos with ⟨_, hdw2⟩ | hi
        · exact absurd hdw2 hdw
        · exact hi
      omega
  | monthly =>
    have hnd : addMonths cur interval = nd := by simpa [ruleNext] using hr
    have hi : 1 ≤ interval := by
      rcases hpos with ⟨hw, _⟩ | hi
      · exact absurd hw (by decide)
      · exact hi
    have := addMonths_strict_mono cur interval hi
    omega
  | custom =>
    have hnd : cur + (interval : Int) = nd := by simpa [ruleNext] using hr
    have hi : 1 ≤ interval := by
      rcases hpos with ⟨hw, _⟩ | hi
      · exact absurd hw (by decide)
      · exact hi
    omega
  | none => simp [ruleNext] at hr

/-- Everything the loop emits: strictly increasing dates past the cursor,
each carrying the derived identity for its own date. -/
theorem genLoop_out (event : CalendarEvent) (t : RecurrenceType) (interval : Nat)
    (daysOfWeek : List Nat) (maxEndDate : Int)
    (hpos : (t = RecurrenceType.weekly ∧ daysOfWeek ≠ []) ∨ 1 ≤ interval) :
    ∀ (fuel : Nat) (cur : Int) (l : List CalendarEvent),
    genLoop event t interval daysOfWeek maxEndDate fuel cur [] = Option.some l →
    (∀ ev ∈ l, cur < ev.date ∧ ev.id = event.id ++ "-" ++ formatDate ev.date) ∧
    List.Pairwise (fun a b => a.date < b.date) l := by
  intro fuel
  induction fuel with
  | zero =>
    intro cur l h
    injection h with h
    subst h
    simp
  | succ fuel ih =>
    intro cur l h
    rw [genLoop_succ] at h
    split_ifs at h with hstop
    · injection h with h
      subst h
      simp
    · cases hr : ruleNext t interval daysOfWeek cur with
      | none => rw [hr] at h; exact absurd h (by simp)
      | some o =>
        rw [hr] at h
        cases o with
        | none =>
          injection h with h
          subst h
          simp
        | some nd =>
          simp only [] at h
          split_ifs at h with hnd
          · injection h with h
            subst h
            simp
          · have hlt : cur < nd := ruleNext_lt t interval daysOfWeek cur nd hpos hr
            rw [genLoop_acc] at h
            cases hg : genLoop event t interval daysOfWeek maxEndDate fuel nd [] with
            | none => rw [hg] at h; exact absurd h (by simp)
            | some l2 =>
              rw [hg] at h
              have hl : ([] ++ [recurringEventFor event nd]) ++ l2 = l :=
                Option.some.inj h
              obtain ⟨hmem2, hpw2⟩ := ih nd l2 hg
              subst hl
              simp only [List.nil_append, List.singleton_append]
              have hoccdate : (recurringEventFor event nd).date = nd := rfl
              have hoccid : (recurringEventFor event nd).id =
                  event.id ++ "-" ++ formatDate nd := rfl
              constructor
              · intro ev hev
                rcases List.mem_cons.mp hev with hev | hev
                · subst hev
                  exact ⟨by rw [hoccdate]; omega, by rw [hoccid, hoccdate]⟩
                · obtain ⟨h1, h2⟩ := hmem2 ev hev
                  exact ⟨by omega, h2⟩
              · rw [List.pairwise_cons]
                refine ⟨?_, hpw2⟩
                intro ev hev
                rw [hoccdate]
                exact (hmem2 ev hev).1

/-! ## Dispatch lemmas for `generateRecurringEvents` -/

/-- The resolved count cap `occurrences || 365` (`some 0` and `none` are
both falsy in JS and fall back to 365). -/
def effectiveMaxOccurrences (e : CalendarEvent) : Nat :=
  match e.recurrence with
  | Option.some r =>
    match r.occurrences with
    | Option.some (n + 1) => n + 1
    | _ => 365
  | Option.none => 365

theorem effectiveMaxOccurrences_pos (e : CalendarEvent) :
    1 ≤ effectiveMaxOccurrences e := by
  unfold effectiveMaxOccurrences
  cases e.recurrence with
  | none => exact (by norm_num : (1 : Nat) ≤ 365)
  | some r =>
    dsimp only
    cases r.occurrences with
    | none => exact (by norm_num : (1 : Nat) ≤ 365)
    | some n => cases n with
      | zero => exact (by norm_num : (1 : Nat) ≤ 365)
      | succ n => exact Nat.succ_le_succ (Nat.zero_le n)

theorem gen_none_rec (e : CalendarEvent) (now : Int)
    (h : e.recurrence = Option.none) :
    generateRecurringEvents e now = Option.some [e] := by
  unfold generateRecurringEvents
  rw [h]

theorem gen_none_type (e : CalendarEvent) (r : RecurrencePattern) (now : Int)
    (hrec : e.recurrence = Option.some r) (htype : r.type = RecurrenceType.none) :
    generateRecurringEvents e now = Option.some [e] := by
  unfold generateRecurringEvents
  rw [hrec]
  dsimp only
  rw [if_pos htype]

theorem gen_rule (e : CalendarEvent) (r : RecurrencePattern) (now : Int)
    (hrec : e.recurrence = Option.some r) (htype : r.type ≠ RecurrenceType.none) :
    generateRecurringEvents e now =
      genLoop e r.type (r.interval.getD 1) r.daysOfWeek
        (r.endDate.getD (addMonths now 12)) (effectiveMaxOccurrences e - 1)
        e.date [e] := by
  unfold generateRecurringEvents effectiveMaxOccurrences
  rw [hrec]
  dsimp only
  rw [if_neg htype]

/-! ## Concrete fixtures -/

/-- A non-recurring event with the given identity, date and times. -/
def plainEvent (i : String) (date : Int) (time endTime : String) : CalendarEvent :=
  { id := i, title := "Event", description := Option.none, date := date, time := time,
    endTime := endTime, color := "blue", category := Option.none,
    recurrence := Option.none, originalDate := Option.none, isRecurring := false }

/-- Attach a recurrence rule. -/
def withRule (e : CalendarEvent) (r : RecurrencePattern) : CalendarEvent :=
  { e with recurrence := Option.some r }

/-- A store state holding the given collection. -/
def baseState (events : List CalendarEvent) : CalendarState :=
  { events := events, currentDate := 0, selectedDate := Option.none,
    view := CalendarView.month, isEventFormOpen := true,
    editingEvent := Option.none, searchQuery := "", selectedCategory := Option.none }

/-! ## C1: conflict detection -/

/-- C1: `checkConflict(candidate, excludeIdentity?)` returns exactly the
stored instances that are not the excluded identity (an empty-string /
absent excludeIdentity excludes nothing), fall on the candidate's calendar
day, and satisfy the inclusive lexicographic "HH:MM" overlap test
`existing.start <= candidate.end AND existing.end >= candidate.start`,
with a missing end time defaulting to the start time on either side.
Touching intervals conflict (09:00–10:00 vs 10:00–11:00 is reported),
while 09:00–09:59 vs 10:00–11:00 is not. -/
theorem c1_conflict_filter :
    (∀ (st : CalendarState) (cand : CalendarEvent) (excl : String),
      checkEventConflict st cand excl = st.events.filter (fun e =>
        decide (¬ (excl ≠ "" ∧ e.id = excl)) &&
        (decide (e.date = cand.date) &&
         (jsLe e.time (if cand.endTime = "" then cand.time else cand.endTime) &&
          jsLe cand.time (if e.endTime = "" then e.time else e.endTime))))) ∧
    checkEventConflict (baseState [plainEvent "a" 0 "09:00" "10:00"])
        (plainEvent "b" 0 "10:00" "11:00") "" =
      [plainEvent "a" 0 "09:00" "10:00"] ∧
    checkEventConflict (baseState [plainEvent "a" 0 "09:00" "09:59"])
        (plainEvent "b" 0 "10:00" "11:00") "" = [] := by
  refine ⟨?_, by decide, by decide⟩
  intro st cand excl
  unfold checkEventConflict
  apply List.filter_congr
  intro e he
  by_cases h1 : excl ≠ "" ∧ e.id = excl <;> by_cases h2 : e.date = cand.date <;>
    simp [h1, h2]

/-! ## C2: termination and count cap -/

/-- The C2 counterexample rule: `maxOccurrences = 0`. -/
def ruleC2 : RecurrencePattern :=
  { type := RecurrenceType.daily, interval := Option.some 1, daysOfWeek := [],
    endDate := Option.some 2, occurrences := Option.some 0 }

/-- The C2 counterexample seed. -/
def evC2 : CalendarEvent := withRule (plainEvent "1" 0 "09:00" "") ruleC2

/-- C2 (counterexample): with `maxOccurrences = 0` the claimed bound
`rule.maxOccurrences ?? 365` is 0, yet expansion returns 3 instances —
the source computes `occurrences || 365`, which treats 0 as unset. -/
theorem c2_cap_counterexample :
    ¬ (∀ (e : CalendarEvent) (now : Int) (r : RecurrencePattern)
        (l : List CalendarEvent),
        e.recurrence = Option.some r →
        generateRecurringEvents e now = Option.some l →
        l.length ≤ r.occurrences.getD 365) := by
  intro hclaim
  have h := hclaim evC2 0 ruleC2 ((generateRecurringEvents evC2 0).getD []) rfl rfl
  revert h
  decide

/-- C2 (amended): expansion yields at most `maxOccurrences` instances when
that field is present and nonzero (else at most 365), and it terminates —
returns a value in the model — whenever any weekly rule with a non-empty
`daysOfWeek` lists at least one real weekday 0–6.  (With a non-empty,
all-invalid `daysOfWeek` the source's weekday search loops forever,
modelled by `none`.) -/
theorem c2_expansion_cap (e : CalendarEvent) (now : Int)
    (hok : ∀ r, e.recurrence = Option.some r → r.type = RecurrenceType.weekly →
      r.daysOfWeek ≠ [] → ∃ w ∈ r.daysOfWeek, w < 7) :
    ∃ l, generateRecurringEvents e now = Option.some l ∧
      l.length ≤ effectiveMaxOccurrences e := by
  have hpos := effectiveMaxOccurrences_pos e
  cases hrec : e.recurrence with
  | none =>
    refine ⟨[e], gen_none_rec e now hrec, ?_⟩
    simpa using hpos
  | some r =>
    by_cases htype : r.type = RecurrenceType.none
    · refine ⟨[e], gen_none_type e r now hrec htype, ?_⟩
      simpa using hpos
    · obtain ⟨l, hl⟩ := genLoop_isSome e r.type (r.interval.getD 1) r.daysOfWeek
        (r.endDate.getD (addMonths now 12)) (fun ht hdw => hok r hrec ht hdw)
        (effectiveMaxOccurrences e - 1) e.date [e]
      refine ⟨l, ?_, ?_⟩
      · rw [gen_rule e r now hrec htype]
        exact hl
      · have hlen := genLoop_length e r.type (r.interval.getD 1) r.daysOfWeek
          (r.endDate.getD (addMonths now 12)) (effectiveMaxOccurrences e - 1)
          e.date [e] l hl
        simp only [List.length_singleton] at hlen
        omega

/-- C2 (witness for the amended theorem). -/
theorem c2_expansion_cap_witness :
    (∀ r, evC2.recurrence = Option.some r → r.type = RecurrenceType.weekly →
      r.daysOfWeek ≠ [] → ∃ w ∈ r.daysOfWeek, w < 7) ∧
    ∃ l, generateRecurringEvents evC2 0 = Option.some l ∧
      l.length ≤ effectiveMaxOccurrences evC2 :=
  ⟨by decide, c2_expansion_cap evC2 0 (by decide)⟩

/-! ## C3: purity with respect to the processing time -/

/-- The C3 counterexample seed: a daily rule with no `endDate`. -/
def evC3 : CalendarEvent :=
  withRule (plainEvent "1" 0 "09:00" "")
    { type := RecurrenceType.daily, interval := Option.some 1, daysOfWeek := [],
      endDate := Option.none, occurrences := Option.some 3 }

/-- C3 (counterexample): the same seed and rule expanded at two different
processing times give different sequences — with `endDate` absent the
default end date is `now + 12 months`, so expansion reads the clock. -/
theorem c3_counterexample :
    generateRecurringEvents evC3 0 ≠ generateRecurringEvents evC3 (-400) := by
  decide

/-- C3 (amended): expansion is a pure function of (seed, rule, processing
time), and it is independent of the processing time whenever there is no
expansion to do or the rule carries an explicit `endDate`. -/
theorem c3_pure_with_endDate (e : CalendarEvent) (now1 now2 : Int)
    (h : ∀ r, e.recurrence = Option.some r →
      r.type = RecurrenceType.none ∨ r.endDate.isSome) :
    generateRecurringEvents e now1 = generateRecurringEvents e now2 := by
  cases hrec : e.recurrence with
  | none =>
    rw [gen_none_rec e now1 hrec, gen_none_rec e now2 hrec]
  | some r =>
    rcases h r hrec with htype | hend
    · rw [gen_none_type e r now1 hrec htype, gen_none_type e r now2 hrec htype]
    · by_cases htype : r.type = RecurrenceType.none
      · rw [gen_none_type e r now1 hrec htype, gen_none_type e r now2 hrec htype]
      · rw [gen_rule e r now1 hrec htype, gen_rule e r now2 hrec htype]
        obtain ⟨d, hd⟩ := Option.isSome_iff_exists.mp hend
        rw [hd]
        rfl

/-- C3 (witness for the amended theorem): a rule with an explicit end date
expands identically at two different processing times. -/
theorem c3_pure_witness :
    (∀ r, (withRule (plainEvent "1" 0 "09:00" "")
      { type := RecurrenceType.daily, interval := Option.some 1, daysOfWeek := [],
        endDate := Option.some 2, occurrences := Option.none }).recurrence =
        Option.some r →
      r.type = RecurrenceType.none ∨ r.endDate.isSome) ∧
    generateRecurringEvents (withRule (plainEvent "1" 0 "09:00" "")
      { type := RecurrenceType.daily, interval := Option.some 1, daysOfWeek := [],
        endDate := Option.some 2, occurrences := Option.none }) 0 =
    generateRecurringEvents (withRule (plainEvent "1" 0 "09:00" "")
      { type := RecurrenceType.daily, interval := Option.some 1, daysOfWeek := [],
        endDate := Option.some 2, occurrences := Option.none }) 100 :=
  ⟨by decide, c3_pure_with_endDate _ 0 100 (by decide)⟩

/-- A daily run with enough head room performs every iteration its fuel
allows: one occurrence per fuel unit. -/
theorem genLoop_daily_exact (e : CalendarEvent) (i : Nat) (dw : List Nat) (me : Int) :
    ∀ (fuel : Nat) (cur : Int) (acc : List CalendarEvent),
    cur < me → cur + (fuel : Int) * (i : Int) ≤ me →
    ∃ l, genLoop e RecurrenceType.daily i dw me fuel cur acc = Option.some l ∧
      l.length = acc.length + fuel := by
  intro fuel
  induction fuel with
  | zero =>
    intro cur acc h1 h2
    exact ⟨acc, rfl, by omega⟩
  | succ fuel ih =>
    intro cur acc h1 h2
    have hi0 : (0 : Int) ≤ (i : Int) := by positivity
    have hsplit : ((fuel + 1 : Nat) : Int) * (i : Int) =
        (fuel : Int) * (i : Int) + (i : Int) := by push_cast; ring
    have hA : (0 : Int) ≤ (fuel : Int) * (i : Int) := by positivity
    have hadv := genLoop_advance e RecurrenceType.daily i dw me fuel cur
      (cur + (i : Int)) acc h1 rfl (by omega)
    by_cases hf : fuel = 0
    · subst hf
      rw [hadv]
      exact ⟨acc ++ [recurringEventFor e (cur + (i : Int))], rfl, by simp⟩
    · have hfuel1 : (1 : Int) ≤ (fuel : Int) := by
        have := Nat.one_le_iff_ne_zero.mpr hf
        exact_mod_cast this
      have hii : (i : Int) ≤ (fuel : Int) * (i : Int) :=
        le_mul_of_one_le_left hi0 hfuel1
      have hcur2 : cur + (i : Int) < me := by omega
      obtain ⟨l, hl, hlen⟩ := ih (cur + (i : Int))
        (acc ++ [recurringEventFor e (cur + (i : Int))]) hcur2 (by omega)
      refine ⟨l, by rw [hadv]; exact hl, ?_⟩
      rw [hlen]
      simp
      omega

/-! ## C4: count cap of five -/

/-- The C4 counterexample rule. -/
def ruleC4 : RecurrencePattern :=
  { type := RecurrenceType.daily, interval := Option.some 1, daysOfWeek := [],
    endDate := Option.none, occurrences := Option.some 5 }

/-- The C4 counterexample seed: dated beyond `now + 12 months`. -/
def evC4 : CalendarEvent := withRule (plainEvent "1" 800 "09:00" "") ruleC4

/-- C4 (counterexample): a daily rule with `maxOccurrences = 5` and no
`endDate` yields a single instance, not 5, when the seed date lies at or
beyond the default end date `now + 12 months` — the endDate default does
matter. -/
theorem c4_counterexample :
    ¬ (∀ (e : CalendarEvent) (r : RecurrencePattern) (now : Int)
        (l : List CalendarEvent),
        e.recurrence = Option.some r → r.type = RecurrenceType.daily →
        r.occurrences = Option.some 5 → r.endDate = Option.none →
        generateRecurringEvents e now = Option.some l → l.length = 5) := by
  intro hclaim
  have h := hclaim evC4 ruleC4 0 ((generateRecurringEvents evC4 0).getD [])
    rfl rfl rfl rfl rfl
  revert h
  decide

/-- C4 (amended): a daily rule with `maxOccurrences = 5` and no `endDate`
yields exactly 5 instances provided the seed date is before the default
end date `now + 12 months` and the four generated dates stay within it. -/
theorem c4_cap_five (e : CalendarEvent) (r : RecurrencePattern) (now : Int)
    (hrec : e.recurrence = Option.some r) (htype : r.type = RecurrenceType.daily)
    (hocc : r.occurrences = Option.some 5) (hend : r.endDate = Option.none)
    (hwin1 : e.date < addMonths now 12)
    (hwin2 : e.date + 4 * (r.interval.getD 1 : Int) ≤ addMonths now 12) :
    ∃ l, generateRecurringEvents e now = Option.some l ∧ l.length = 5 := by
  have hcap : effectiveMaxOccurrences e = 5 := by
    unfold effectiveMaxOccurrences
    rw [hrec]
    dsimp only
    rw [hocc]
  rw [gen_rule e r now hrec (by rw [htype]; decide), hcap, hend]
  rw [show (Option.none : Option Int).getD (addMonths now 12) = addMonths now 12 from rfl]
  rw [htype]
  obtain ⟨l, hl, hlen⟩ := genLoop_daily_exact e (r.interval.getD 1) r.daysOfWeek
    (addMonths now 12) 4 e.date [e] hwin1 (by push_cast at hwin2 ⊢; omega)
  exact ⟨l, by rw [show (5 : Nat) - 1 = 4 from rfl]; exact hl, by simpa using hlen⟩

/-- C4 (witness for the amended theorem). -/
theorem c4_cap_five_witness :
    evC4.recurrence = Option.some ruleC4 ∧
    ((0 : Int) < addMonths 0 12 ∧ (0 : Int) + 4 * ((ruleC4.interval.getD 1 : Nat) : Int) ≤
      addMonths 0 12) ∧
    ∃ l, generateRecurringEvents (withRule (plainEvent "1" 0 "09:00" "") ruleC4) 0 =
      Option.some l ∧ l.length = 5 :=
  ⟨rfl, ⟨by decide, by decide⟩,
    c4_cap_five (withRule (plainEvent "1" 0 "09:00" "") ruleC4) ruleC4 0 rfl rfl rfl rfl
      (by decide) (by decide)⟩

/-! ## C5: date cap -/

/-- The C5 rule: daily, interval 1, end date three days after `d`. -/
def dailyCappedRule (d : Int) : RecurrencePattern :=
  { type := RecurrenceType.daily, interval := Option.some 1, daysOfWeek := [],
    endDate := Option.some (d + 3), occurrences := Option.none }

/-- A seed on date `d` carrying `dailyCappedRule d`. -/
def dailyCapped (base : CalendarEvent) (d : Int) : CalendarEvent :=
  withRule { base with date := d } (dailyCappedRule d)

/-- C5: a daily rule with interval 1 and `endDate` = seed date + 3 days
expands to exactly 4 instances (seed + 3), with dates `d, d+1, d+2, d+3`:
the occurrence on the end date is included, no instance is dated after
it, and the would-be occurrence strictly after it is excluded. -/
theorem c5_end_date_cap (base : CalendarEvent) (d now : Int) :
    ∃ l, generateRecurringEvents (dailyCapped base d) now = Option.some l ∧
      l.map CalendarEvent.date = [d, d + 1, d + 2, d + 3] ∧
      l.length = 4 ∧ (∀ ev ∈ l, ev.date ≤ d + 3) := by
  rw [gen_rule (dailyCapped base d) (dailyCappedRule d) now rfl
    (fun h => RecurrenceType.noConfusion h)]
  rw [show effectiveMaxOccurrences (dailyCapped base d) - 1 = 363 + 1 from rfl]
  rw [show (dailyCappedRule d).type = RecurrenceType.daily from rfl]
  rw [show ((dailyCappedRule d).interval.getD 1) = 1 from rfl]
  rw [show (dailyCappedRule d).daysOfWeek = [] from rfl]
  rw [show ((dailyCappedRule d).endDate.getD (addMonths now 12)) = d + 3 from rfl]
  rw [show (dailyCapped base d).date = d from rfl]
  have hrn : ∀ cur : Int, ruleNext RecurrenceType.daily 1 [] cur =
      Option.some (Option.some (cur + ((1 : Nat) : Int))) := fun cur => rfl
  rw [genLoop_advance _ RecurrenceType.daily 1 [] (d + 3) 363 d (d + ((1 : Nat) : Int)) _
    (by omega) (hrn d) (by omega)]
  rw [show (363 : Nat) = 362 + 1 from rfl]
  rw [genLoop_advance _ RecurrenceType.daily 1 [] (d + 3) 362 (d + ((1 : Nat) : Int))
    (d + ((1 : Nat) : Int) + ((1 : Nat) : Int)) _ (by omega) (hrn _) (by omega)]
  rw [show (362 : Nat) = 361 + 1 from rfl]
  rw [genLoop_advance _ RecurrenceType.daily 1 [] (d + 3) 361
    (d + ((1 : Nat) : Int) + ((1 : Nat) : Int))
    (d + ((1 : Nat) : Int) + ((1 : Nat) : Int) + ((1 : Nat) : Int)) _
    (by omega) (hrn _) (by omega)]
  rw [genLoop_stop _ RecurrenceType.daily 1 [] (d + 3) 361 _ _ (by omega)]
  refine ⟨_, rfl, ?_, ?_, ?_⟩
  · simp [recurringEventFor, dailyCapped, withRule]
    omega
  · simp
  · intro ev hev
    simp [recurringEventFor] at hev
    rcases hev with rfl | rfl | rfl | rfl <;>
      simp [dailyCapped, withRule] <;> omega

/-! ## C6: weekly by weekday -/

/-- Runs of two weekly rules over the same weekday list produce the same
dates regardless of the interval field (the occurrence records may differ
only in the rule they carry). -/
theorem genLoop_weekly_dates (e1 e2 : CalendarEvent) (i1 i2 : Nat)
    (daysOfWeek : List Nat) (me : Int) (hdw : daysOfWeek ≠ []) :
    ∀ (fuel : Nat) (cur : Int),
    (genLoop e1 RecurrenceType.weekly i1 daysOfWeek me fuel cur []).map
        (List.map CalendarEvent.date) =
    (genLoop e2 RecurrenceType.weekly i2 daysOfWeek me fuel cur []).map
        (List.map CalendarEvent.date) := by
  intro fuel
  induction fuel with
  | zero => intro cur; rfl
  | succ fuel ih =>
    intro cur
    rw [genLoop_succ, genLoop_succ]
    have hrule : ∀ (e : CalendarEvent) (i : Nat),
        ruleNext RecurrenceType.weekly i daysOfWeek cur =
          (findNextWeekday daysOfWeek 7 (cur + 1)).map Option.some := by
      intro e i
      simp [ruleNext, hdw]
    rw [hrule e1 i1, hrule e2 i2]
    split_ifs with hstop
    · rfl
    · cases findNextWeekday daysOfWeek 7 (cur + 1) with
      | none => rfl
      | some nd =>
        rw [show Option.map (Option.some : Int → Option Int) (Option.some nd) =
          Option.some (Option.some nd) from rfl]
        show Option.map _ (if me < nd then _ else _) = Option.map _ (if me < nd then _ else _)
        split_ifs with hnd
        · rfl
        · rw [genLoop_acc e1, genLoop_acc e2]
          have hih := ih nd
          cases hga : genLoop e1 RecurrenceType.weekly i1 daysOfWeek me fuel nd [] with
          | none =>
            rw [hga] at hih
            cases hgb : genLoop e2 RecurrenceType.weekly i2 daysOfWeek me fuel nd [] with
            | some l2 => rw [hgb] at hih; exact absurd hih (by simp)
            | none => rfl
          | some l1 =>
            rw [hga] at hih
            cases hgb : genLoop e2 RecurrenceType.weekly i2 daysOfWeek me fuel nd [] with
            | none => rw [hgb] at hih; exact absurd hih (by simp)
            | some l2 =>
              rw [hgb] at hih
              have hdates : l1.map CalendarEvent.date = l2.map CalendarEvent.date := by
                simpa using hih
              have h1 : Option.map (List.map CalendarEvent.date)
                  (Option.map (fun x => ([] ++ [recurringEventFor e1 nd]) ++ x)
                    (Option.some l1)) =
                  Option.some (nd :: l1.map CalendarEvent.date) := by
                simp [recurringEventFor]
              have h2 : Option.map (List.map CalendarEvent.date)
                  (Option.map (fun x => ([] ++ [recurringEventFor e2 nd]) ++ x)
                    (Option.some l2)) =
                  Option.some (nd :: l2.map CalendarEvent.date) := by
                simp [recurringEventFor]
              rw [h1, h2, hdates]

/-- Date-level interval independence, lifted to runs with accumulators
whose dates agree. -/
theorem genLoop_weekly_dates_acc (e1 e2 : CalendarEvent) (i1 i2 : Nat)
    (daysOfWeek : List Nat) (me : Int) (hdw : daysOfWeek ≠ [])
    (acc1 acc2 : List CalendarEvent)
    (hacc : acc1.map CalendarEvent.date = acc2.map CalendarEvent.date)
    (fuel : Nat) (cur : Int) :
    (genLoop e1 RecurrenceType.weekly i1 daysOfWeek me fuel cur acc1).map
      (List.map CalendarEvent.date) =
    (genLoop e2 RecurrenceType.weekly i2 daysOfWeek me fuel cur acc2).map
      (List.map CalendarEvent.date) := by
  rw [genLoop_acc e1, genLoop_acc e2]
  have h := genLoop_weekly_dates e1 e2 i1 i2 daysOfWeek me hdw fuel cur
  cases hga : genLoop e1 RecurrenceType.weekly i1 daysOfWeek me fuel cur [] with
  | none =>
    rw [hga] at h
    cases hgb : genLoop e2 RecurrenceType.weekly i2 daysOfWeek me fuel cur [] with
    | some l2 => rw [hgb] at h; exact absurd h (by simp)
    | none => rfl
  | some l1 =>
    rw [hga] at h
    cases hgb : genLoop e2 RecurrenceType.weekly i2 daysOfWeek me fuel cur [] with
    | none => rw [hgb] at h; exact absurd h (by simp)
    | some l2 =>
      rw [hgb] at h
      have hd : l1.map CalendarEvent.date = l2.map CalendarEvent.date := by simpa using h
      simp [hacc, hd]

/-- The C6 rule: weekly on Mondays and Fridays, unbounded, with an
arbitrary interval field. -/
def weeklyMFRule (iv : Option Nat) : RecurrencePattern :=
  { type := RecurrenceType.weekly, interval := iv, daysOfWeek := [1, 5],
    endDate := Option.none, occurrences := Option.none }

/-- A seed on date `d` carrying `weeklyMFRule iv`. -/
def weeklyMF (base : CalendarEvent) (d : Int) (iv : Option Nat) : CalendarEvent :=
  withRule { base with date := d } (weeklyMFRule iv)

/-- C6: from a Wednesday seed, a weekly rule with `daysOfWeek = [Monday,
Friday]` generates its next two occurrences on the following Friday
(seed + 2, a Friday) and then the Monday after it (seed + 5, a Monday), in
strictly increasing date order; the dates are independent of the interval
field. -/
theorem c6_weekly_by_weekday (base : CalendarEvent) (d now : Int) (iv : Option Nat)
    (hwed : getDay d = 3) (hreach : d + 5 ≤ addMonths now 12) :
    (∃ l, generateRecurringEvents (weeklyMF base d iv) now = Option.some l ∧
      (l.map CalendarEvent.date).take 3 = [d, d + 2, d + 5]) ∧
    getDay (d + 2) = 5 ∧ getDay (d + 5) = 1 ∧
    ∀ i2 : Option Nat,
      (generateRecurringEvents (weeklyMF base d iv) now).map (List.map CalendarEvent.date) =
      (generateRecurringEvents (weeklyMF base d i2) now).map (List.map CalendarEvent.date) := by
  have hg1 : getDay (d + 1) = 4 := by unfold getDay at hwed ⊢; omega
  have hg2 : getDay (d + 2) = 5 := by unfold getDay at hwed ⊢; omega
  have hg3 : getDay (d + 2 + 1) = 6 := by unfold getDay at hwed ⊢; omega
  have hg4 : getDay (d + 2 + 1 + 1) = 0 := by unfold getDay at hwed ⊢; omega
  have hg5 : getDay (d + 2 + 1 + 1 + 1) = 1 := by unfold getDay at hwed ⊢; omega
  have hg5x : getDay (d + 5) = 1 := by unfold getDay at hwed ⊢; omega
  have hfw1 : findNextWeekday [1, 5] 7 (d + 1) = Option.some (d + 2) := by
    rw [findNextWeekday_succ, hg1, if_neg (by decide),
      show d + 1 + 1 = d + 2 from by ring,
      findNextWeekday_succ, hg2, if_pos (by decide)]
  have hfw2 : findNextWeekday [1, 5] 7 (d + 2 + 1) = Option.some (d + 5) := by
    rw [findNextWeekday_succ, hg3, if_neg (by decide),
      findNextWeekday_succ, hg4, if_neg (by decide),
      findNextWeekday_succ, hg5, if_pos (by decide),
      show d + 2 + 1 + 1 + 1 = d + 5 from by ring]
  have hrn : ∀ (j : Nat) (cur : Int),
      ruleNext RecurrenceType.weekly j [1, 5] cur =
        (findNextWeekday [1, 5] 7 (cur + 1)).map Option.some := by
    intro j cur
    simp [ruleNext]
  refine ⟨?_, hg2, hg5x, ?_⟩
  · rw [gen_rule (weeklyMF base d iv) (weeklyMFRule iv) now rfl
      (fun h => RecurrenceType.noConfusion h)]
    rw [show effectiveMaxOccurrences (weeklyMF base d iv) - 1 = 363 + 1 from rfl]
    rw [show (weeklyMFRule iv).type = RecurrenceType.weekly from rfl]
    rw [show (weeklyMFRule iv).daysOfWeek = [1, 5] from rfl]
    rw [show ((weeklyMFRule iv).endDate.getD (addMonths now 12)) = addMonths now 12 from rfl]
    rw [show (weeklyMF base d iv).date = d from rfl]
    rw [genLoop_advance _ RecurrenceType.weekly ((weeklyMFRule iv).interval.getD 1) [1, 5]
      (addMonths now 12) 363 d (d + 2) _
      (by omega) (by rw [hrn _ d, hfw1]; rfl) (by omega)]
    rw [show (363 : Nat) = 362 + 1 from rfl]
    rw [genLoop_advance _ RecurrenceType.weekly ((weeklyMFRule iv).interval.getD 1) [1, 5]
      (addMonths now 12) 362 (d + 2)
      (d + 5) _ (by omega) (by rw [hrn _ (d + 2), hfw2]; rfl) (by omega)]
    rw [genLoop_acc]
    obtain ⟨lrest, hrest⟩ := genLoop_isSome (weeklyMF base d iv) RecurrenceType.weekly
      ((weeklyMFRule iv).interval.getD 1) [1, 5] (addMonths now 12)
      (fun _ hne => ⟨1, by decide, by decide⟩) 362 (d + 5) []
    rw [hrest]
    refine ⟨_, rfl, ?_⟩
    simp [recurringEventFor, weeklyMF, withRule]
  · intro i2
    rw [gen_rule (weeklyMF base d iv) (weeklyMFRule iv) now rfl
        (fun h => RecurrenceType.noConfusion h),
      gen_rule (weeklyMF base d i2) (weeklyMFRule i2) now rfl
        (fun h => RecurrenceType.noConfusion h)]
    rw [show (weeklyMFRule iv).type = RecurrenceType.weekly from rfl,
      show (weeklyMFRule i2).type = RecurrenceType.weekly from rfl,
      show (weeklyMFRule iv).daysOfWeek = [1, 5] from rfl,
      show (weeklyMFRule i2).daysOfWeek = [1, 5] from rfl,
      show ((weeklyMFRule iv).endDate.getD (addMonths now 12)) = addMonths now 12 from rfl,
      show ((weeklyMFRule i2).endDate.getD (addMonths now 12)) = addMonths now 12 from rfl,
      show (weeklyMF base d iv).date = d from rfl,
      show (weeklyMF base d i2).date = d from rfl,
      show effectiveMaxOccurrences (weeklyMF base d iv) - 1 = 364 from rfl,
      show effectiveMaxOccurrences (weeklyMF base d i2) - 1 = 364 from rfl]
    exact genLoop_weekly_dates_acc (weeklyMF base d iv) (weeklyMF base d i2)
      ((weeklyMFRule iv).interval.getD 1) ((weeklyMFRule i2).interval.getD 1) [1, 5]
      (addMonths now 12) (by decide) [weeklyMF base d iv] [weeklyMF base d i2] rfl 364 d

/-- C6 (witness): day 6 (1970-01-07) is a Wednesday; the run from it
produces day 8 (Friday) then day 11 (Monday). -/
theorem c6_weekly_by_weekday_witness :
    getDay 6 = 3 ∧ (6 : Int) + 5 ≤ addMonths 0 12 ∧
    ((∃ l, generateRecurringEvents (weeklyMF (plainEvent "1" 0 "09:00" "") 6 Option.none) 0 =
        Option.some l ∧
      (l.map CalendarEvent.date).take 3 = [6, 6 + 2, 6 + 5]) ∧
    getDay (6 + 2) = 5 ∧ getDay (6 + 5) = 1 ∧
    ∀ i2 : Option Nat,
      (generateRecurringEvents (weeklyMF (plainEvent "1" 0 "09:00" "") 6 Option.none) 0).map
        (List.map CalendarEvent.date) =
      (generateRecurringEvents (weeklyMF (plainEvent "1" 0 "09:00" "") 6 i2) 0).map
        (List.map CalendarEvent.date)) :=
  ⟨by decide, by decide,
    c6_weekly_by_weekday (plainEvent "1" 0 "09:00" "") 6 0 Option.none
      (by decide) (by decide)⟩

/-- C7 counterexample fixtures: two stored events with identities "1" and
"2", and a patch whose `id` field is set to "1". -/
def evC7a : CalendarEvent := plainEvent "1" 0 "09:00" ""

def evC7b : CalendarEvent := plainEvent "2" 0 "09:00" ""

def patchC7 : EventPatch := { EventPatch.empty with id := Option.some "1" }

/-- C7 (counterexample): the store-wide part of the claim fails.
`update` can write the `id` field itself (a `Partial<CalendarEvent>` may
contain `id`), so updating event "2" with `{ id: "1" }` leaves two
instances with identity "1": distinctness is not preserved by every
sequence of store operations. -/
theorem c7_counterexample :
    ¬ ∀ (st : CalendarState) (eid : String) (p : EventPatch),
        st.events.Pairwise (fun a b => a.id ≠ b.id) →
        (updateEvent st eid p).events.Pairwise (fun a b => a.id ≠ b.id) := by
  intro h
  have hc := h (baseState [evC7a, evC7b]) "2" patchC7 (by decide)
  revert hc
  decide

/-- C7 (amended): within a single expansion run the claim does hold: if
expansion terminates, the seed identity and all derived identities
`seed.id ++ "-" ++ yyyy-MM-dd` are pairwise distinct, provided the seed
date is not before the epoch (so the date rendering is injective) and any
present rule has a positive effective interval or is a weekly rule with
explicit weekdays (so the cursor strictly advances). -/
theorem c7_run_ids_distinct (e : CalendarEvent) (now : Int) (l : List CalendarEvent)
    (hdate : 0 ≤ e.date)
    (hpos : ∀ r, e.recurrence = Option.some r → r.type ≠ RecurrenceType.none →
      ((r.type = RecurrenceType.weekly ∧ r.daysOfWeek ≠ []) ∨ 1 ≤ r.interval.getD 1))
    (h : generateRecurringEvents e now = Option.some l) :
    l.Pairwise (fun a b => a.id ≠ b.id) := by
  cases hrec : e.recurrence with
  | none =>
    rw [gen_none_rec e now hrec] at h
    injection h with h
    subst h
    simp
  | some r =>
    by_cases htype : r.type = RecurrenceType.none
    · rw [gen_none_type e r now hrec htype] at h
      injection h with h
      subst h
      simp
    · rw [gen_rule e r now hrec htype] at h
      rw [genLoop_acc] at h
      cases hg : genLoop e r.type (r.interval.getD 1) r.daysOfWeek
          (r.endDate.getD (addMonths now 12)) (effectiveMaxOccurrences e - 1)
          e.date [] with
      | none => rw [hg] at h; exact absurd h (by simp)
      | some l2 =>
        rw [hg] at h
        have hl : ([e] ++ l2) = l := Option.some.inj h
        obtain ⟨hmem, hpw⟩ := genLoop_out e r.type (r.interval.getD 1) r.daysOfWeek
          (r.endDate.getD (addMonths now 12)) (hpos r hrec htype)
          (effectiveMaxOccurrences e - 1) e.date l2 hg
        subst hl
        rw [List.singleton_append, List.pairwise_cons]
        constructor
        · intro ev hev
          rw [(hmem ev hev).2]
          exact recurId_ne e.id (formatDate ev.date)
        · refine hpw.imp_of_mem ?_
          intro a b ha hb hab hid
          obtain ⟨hda, hia⟩ := hmem a ha
          obtain ⟨hdb, hib⟩ := hmem b hb
          rw [hia, hib] at hid
          have hf := recurId_inj e.id _ _ hid
          have := formatDate_inj a.date b.date (by omega) (by omega) hf
          omega

/-- C7 witness fixture: a daily rule capped at 3 occurrences on a seed
five days past the epoch. -/
def evC7w : CalendarEvent :=
  withRule (plainEvent "7" 5 "09:00" "")
    { type := RecurrenceType.daily, interval := Option.none, daysOfWeek := [],
      endDate := Option.none, occurrences := Option.some 3 }

/-- C7 (witness): the amended identity-distinctness theorem at the
concrete capped daily run. -/
theorem c7_run_ids_distinct_witness :
    ((generateRecurringEvents evC7w 0).getD []).Pairwise (fun a b => a.id ≠ b.id) := by
  have h : generateRecurringEvents evC7w 0 =
      Option.some ((generateRecurringEvents evC7w 0).getD []) := by decide
  refine c7_run_ids_distinct evC7w 0 _ (by decide) ?_ h
  intro r hr htype
  have h2 : (⟨RecurrenceType.daily, Option.none, [], Option.none,
      Option.some 3⟩ : RecurrencePattern) = r := Option.some.inj hr
  subst h2
  exact Or.inr (by decide)

/-- C8: update, delete and move with an identity matching no stored
instance leave the event collection exactly unchanged (and, being total
functions on the state, raise no error). -/
theorem c8_noop_on_miss (st : CalendarState) (eid : String) (p : EventPatch)
    (nd : Int) (hmiss : ∀ ev ∈ st.events, ev.id ≠ eid) :
    (updateEvent st eid p).events = st.events ∧
    (deleteEvent st eid).events = st.events ∧
    (moveEvent st eid nd).events = st.events := by
  refine ⟨?_, ?_, ?_⟩
  · show st.events.map _ = st.events
    have h := List.map_congr_left
      (l := st.events)
      (g := id)
      (fun ev hev => by
        show (if ev.id = eid then applyPatch ev p else ev) = id ev
        rw [if_neg (hmiss ev hev)]
        rfl)
    rw [h, List.map_id]
  · show st.events.filter _ = st.events
    refine List.filter_eq_self.mpr ?_
    intro ev hev
    exact decide_eq_true (hmiss ev hev)
  · show st.events.map _ = st.events
    have h := List.map_congr_left
      (l := st.events)
      (g := id)
      (fun ev hev => by
        show (if ev.id = eid then { ev with date := nd } else ev) = id ev
        rw [if_neg (hmiss ev hev)]
        rfl)
    rw [h, List.map_id]

/-- C8 (witness): the no-op-on-miss theorem at a one-event store and the
identity "nonexistent". -/
theorem c8_noop_on_miss_witness :
    (updateEvent (baseState [plainEvent "1" 0 "09:00" ""]) "nonexistent"
        EventPatch.empty).events = (baseState [plainEvent "1" 0 "09:00" ""]).events ∧
    (deleteEvent (baseState [plainEvent "1" 0 "09:00" ""])
        "nonexistent").events = (baseState [plainEvent "1" 0 "09:00" ""]).events ∧
    (moveEvent (baseState [plainEvent "1" 0 "09:00" ""]) "nonexistent"
        3).events = (baseState [plainEvent "1" 0 "09:00" ""]).events :=
  c8_noop_on_miss (baseState [plainEvent "1" 0 "09:00" ""]) "nonexistent"
    EventPatch.empty 3 (by decide)

/-- C10: every `updateEvent` and every `deleteEvent` call — whatever the
identity, matched or not — also sets `isEventFormOpen` to `false` and
`editingEvent` to `null`; the closing side effect is unconditional in both
reducers, exactly as the claim reads off the source (and the spec mentions
only for add). -/
theorem c10_update_delete_close_form (st : CalendarState) (eid : String)
    (p : EventPatch) :
    (updateEvent st eid p).isEventFormOpen = false ∧
    (updateEvent st eid p).editingEvent = Option.none ∧
    (deleteEvent st eid).isEventFormOpen = false ∧
    (deleteEvent st eid).editingEvent = Option.none :=
  ⟨rfl, rfl, rfl, rfl⟩

/-- A rendered date is never the empty string (it always contains the
month dash), so the load effect's truthiness checks on stored date strings
never misfire on saved data. -/
theorem formatDate_ne_empty (d : Int) : formatDate d ≠ "" := by
  unfold formatDate
  intro h
  have hdata : formatCivil (civilFromDays d) = [] := congrArg String.data h
  rw [formatCivil] at hdata
  rcases List.append_eq_nil.mp hdata with ⟨_, h2⟩
  exact List.cons_ne_nil _ _ h2

/-- Per-event round trip at the persistence boundary: loading a saved
event reproduces it, provided every date it carries is not before the
epoch (so `yyyy-MM-dd` parses back to the same day number). -/
theorem loadEvent_saveEvent (e : CalendarEvent)
    (h1 : 0 ≤ e.date)
    (h2 : e.originalDate.all (fun o => decide (0 ≤ o)) = true)
    (h3 : e.recurrence.all
      (fun r => r.endDate.all fun ed => decide (0 ≤ ed)) = true) :
    loadEvent (saveEvent e) = Option.some e := by
  obtain ⟨id, title, desc, date, time, endTime, color, cat, rec, orig, isRec⟩ := e
  simp only at h1 h2 h3
  cases orig with
  | none =>
    cases rec with
    | none =>
      simp [saveEvent, loadEvent, Option.map, parseDate_formatDate date h1]
    | some r =>
      obtain ⟨rt, ri, rdw, red, ro⟩ := r
      simp only [Option.all_some] at h3
      cases red with
      | none =>
        simp [saveEvent, loadEvent, Option.map, parseDate_formatDate date h1]
      | some ed =>
        simp only [Option.all_some, decide_eq_true_eq] at h3
        simp [saveEvent, loadEvent, Option.map, parseDate_formatDate date h1,
          parseDate_formatDate ed h3, formatDate_ne_empty]
  | some o =>
    simp only [Option.all_some, decide_eq_true_eq] at h2
    cases rec with
    | none =>
      simp [saveEvent, loadEvent, Option.map, parseDate_formatDate date h1,
        parseDate_formatDate o h2, formatDate_ne_empty]
    | some r =>
      obtain ⟨rt, ri, rdw, red, ro⟩ := r
      simp only [Option.all_some] at h3
      cases red with
      | none =>
        simp [saveEvent, loadEvent, Option.map, parseDate_formatDate date h1,
          parseDate_formatDate o h2, formatDate_ne_empty]
      | some ed =>
        simp only [Option.all_some, decide_eq_true_eq] at h3
        simp [saveEvent, loadEvent, Option.map, parseDate_formatDate date h1,
          parseDate_formatDate o h2, parseDate_formatDate ed h3, formatDate_ne_empty]

/-- C9: saving the full collection and reloading it reproduces it exactly
— identities, dates and all other fields — whenever every stored date
(event date, original date, rule end date) is not before the epoch; every
date-typed field is reconstructed from its `yyyy-MM-dd` string form. -/
theorem c9_roundtrip (events : List CalendarEvent)
    (h1 : ∀ e ∈ events, 0 ≤ e.date)
    (h2 : ∀ e ∈ events, e.originalDate.all (fun o => decide (0 ≤ o)) = true)
    (h3 : ∀ e ∈ events, e.recurrence.all
      (fun r => r.endDate.all fun ed => decide (0 ≤ ed)) = true) :
    loadEvents (saveEvents events) = Option.some events := by
  induction events with
  | nil => rfl
  | cons e es ih =>
    have hih := ih (fun x hx => h1 x (List.mem_cons_of_mem e hx))
      (fun x hx => h2 x (List.mem_cons_of_mem e hx))
      (fun x hx => h3 x (List.mem_cons_of_mem e hx))
    unfold loadEvents saveEvents at hih ⊢
    rw [List.map_cons, List.mapM_cons,
      loadEvent_saveEvent e (h1 e (List.mem_cons_self e es))
        (h2 e (List.mem_cons_self e es)) (h3 e (List.mem_cons_self e es)),
      hih]
    rfl

/-- C9 (witness): the round trip at a two-event collection containing a
generated occurrence with an original date and a rule carrying an end
date. -/
theorem c9_roundtrip_witness :
    loadEvents (saveEvents
      [withRule { plainEvent "1" 3 "09:00" "10:00" with
          originalDate := Option.some 2, isRecurring := true }
        { type := RecurrenceType.daily, interval := Option.some 2, daysOfWeek := [],
          endDate := Option.some 10, occurrences := Option.none },
       plainEvent "2" 0 "12:00" ""]) =
    Option.some
      [withRule { plainEvent "1" 3 "09:00" "10:00" with
          originalDate := Option.some 2, isRecurring := true }
        { type := RecurrenceType.daily, interval := Option.some 2, daysOfWeek := [],
          endDate := Option.some 10, occurrences := Option.none },
       plainEvent "2" 0 "12:00" ""] :=
  c9_roundtrip _ (by decide) (by decide) (by decide)

end DayPlanner
